import Mathlib

/-!
Verification of the VECTRIX SDK deterministic physics/collision core.

This file gives a shallow embedding, in Lean 4, of the numeric core of the
vectrix-lab/sdk repository and proves (or refutes) the frozen specification
claims about it.  JavaScript numbers are modelled by exact rationals except
where a claim is specifically about IEEE special values, in which case an
extended number type with NaN and signed infinities is used.  Transcendental
operations (Math.sqrt) are abstracted by a function parameter, since every
property proved here is independent of the approximation the host platform
computes; witnesses instantiate it with a concrete function.

Sources embedded here:
  - src/simulation/deterministic.ts (SeededRandom, DeterministicRuntime)
  - src/simulation/integrators.ts   (Euler, SemiImplicitEuler, Verlet, RK4)
  - src/simulation/runtime.ts       (SimulationRuntime physics/hash step)
  - src/collision/broadphase.ts     (Simple, SpatialHash, SweepAndPrune)
  - src/collision/narrowphase.ts    (raycastSphere, raycastAabb)
  - src/collision/contacts.ts       (resolveContact)
  - src/world/transform.ts          (Vec3 / AABB operations)
  - src/world/state.ts              (serializeState / deserializeState)
-/

set_option maxHeartbeats 1600000

-- =============================================================================
-- Rational 3D vectors (Vector3 from src/core/types.ts, ops from transform.ts)
-- =============================================================================

/-- A 3D vector with exact rational components, embedding the runtime shape of
the Vector3 interface. -/
structure Vec3Q where
  x : ℚ
  y : ℚ
  z : ℚ
deriving DecidableEq, Repr

/-- Componentwise vector addition (Vec3.add). -/
def vadd (a b : Vec3Q) : Vec3Q :=
  ⟨a.x + b.x, a.y + b.y, a.z + b.z⟩

/-- Componentwise vector subtraction (Vec3.sub). -/
def vsub (a b : Vec3Q) : Vec3Q :=
  ⟨a.x - b.x, a.y - b.y, a.z - b.z⟩

/-- Scalar multiplication (Vec3.mul). -/
def vmul (v : Vec3Q) (s : ℚ) : Vec3Q :=
  ⟨v.x * s, v.y * s, v.z * s⟩

/-- Scalar division (Vec3.div). -/
def vdiv (v : Vec3Q) (s : ℚ) : Vec3Q :=
  ⟨v.x / s, v.y / s, v.z / s⟩

/-- Dot product (Vec3.dot). -/
def vdot (a b : Vec3Q) : ℚ :=
  a.x * b.x + a.y * b.y + a.z * b.z

/-- Squared length (Vec3.lengthSq). -/
def vlengthSq (v : Vec3Q) : ℚ :=
  v.x * v.x + v.y * v.y + v.z * v.z

/-- The zero vector (Vec3.zero). -/
def vzero : Vec3Q :=
  ⟨0, 0, 0⟩

/-- Length of a vector (Vec3.length); Math.sqrt is abstracted by the
parameter sq, which every theorem either quantifies over or instantiates. -/
def vlength (sq : ℚ → ℚ) (v : Vec3Q) : ℚ :=
  sq (v.x * v.x + v.y * v.y + v.z * v.z)

/-- Normalization (Vec3.normalize): returns zero for a zero-length input,
otherwise divides by the (abstract) length. -/
def vnormalize (sq : ℚ → ℚ) (v : Vec3Q) : Vec3Q :=
  if vlength sq v = 0 then vzero else vdiv v (vlength sq v)

-- =============================================================================
-- AABBs (AABB from src/core/types.ts, AABBOps from transform.ts)
-- =============================================================================

/-- An axis-aligned bounding box over rational coordinates. -/
structure AABBQ where
  lo : Vec3Q
  hi : Vec3Q
deriving DecidableEq, Repr

/-- Overlap test for two AABBs (AABBOps.intersects), a conjunction of
per-axis closed-interval overlap tests. -/
def aabbIntersects (a b : AABBQ) : Bool :=
  a.lo.x ≤ b.hi.x && a.hi.x ≥ b.lo.x &&
  a.lo.y ≤ b.hi.y && a.hi.y ≥ b.lo.y &&
  a.lo.z ≤ b.hi.z && a.hi.z ≥ b.lo.z

/-- Containment test of a point in an AABB (AABBOps.contains). -/
def aabbContains (a : AABBQ) (p : Vec3Q) : Bool :=
  p.x ≥ a.lo.x && p.x ≤ a.hi.x &&
  p.y ≥ a.lo.y && p.y ≤ a.hi.y &&
  p.z ≥ a.lo.z && p.z ≤ a.hi.z

-- =============================================================================
-- Deterministic clock (DeterministicRuntime.advance in deterministic.ts)
-- =============================================================================

/-- Configuration of the deterministic runtime (DeterministicConfig). -/
structure DeterministicConfigQ where
  fixedTimestep : ℚ
  maxSubsteps : ℕ
  deterministicOrder : Bool
  validateDeterminism : Bool
deriving DecidableEq, Repr

/-- Accumulator state of DeterministicRuntime relevant to advance: the time
accumulator and the running step counter. -/
structure ClockState where
  accumulator : ℚ
  currentStep : ℕ
deriving DecidableEq, Repr

/-- One bounded unrolling of the while loop inside advance.  Each iteration
with accumulator ≥ fixedTimestep records the callback invocation arguments
(fixedTimestep, currentStep), subtracts the timestep and increments the step
counter, exactly as the source loop does.  The fuel argument only cuts off
the unrolling; clockLoop below always supplies strictly more fuel than the
loop can consume, so the cut is never taken (clockLoopGo_spec). -/
def clockLoopGo (ft : ℚ) : ℕ → ℚ → ℕ → List (ℚ × ℕ) × ℚ × ℕ
  | 0, acc, step => ([], acc, step)
  | fuel + 1, acc, step =>
    if ft ≤ acc then
      let r := clockLoopGo ft fuel (acc - ft) (step + 1)
      ((ft, step) :: r.1, r.2)
    else
      ([], acc, step)

/-- The while loop of advance: runs while the accumulator still covers a full
fixed timestep.  Fuel ⌊acc/ft⌋ + 1 strictly exceeds the number of iterations
whenever ft > 0, so this equals the unbounded loop of the source. -/
def clockLoop (ft : ℚ) (acc : ℚ) (step : ℕ) : List (ℚ × ℕ) × ℚ × ℕ :=
  clockLoopGo ft ((Rat.floor (acc / ft)).toNat + 1) acc step

/-- DeterministicRuntime.advance: adds the delta to the accumulator, clamps
the accumulator to fixedTimestep × maxSubsteps, then steps while a full
timestep is covered.  Returns the list of callback invocations (whose length
is the returned stepsTaken of the source) and the new clock state. -/
def clockAdvance (cfg : DeterministicConfigQ) (st : ClockState) (dt : ℚ) :
    List (ℚ × ℕ) × ClockState :=
  let acc1 := st.accumulator + dt
  let maxTime := cfg.fixedTimestep * (cfg.maxSubsteps : ℚ)
  let acc2 := if maxTime < acc1 then maxTime else acc1
  let r := clockLoop cfg.fixedTimestep acc2 st.currentStep
  (r.1, ⟨r.2.1, r.2.2⟩)

/-- Repeated advance calls over a list of wall-clock deltas, concatenating
the callback invocation lists. -/
def clockAdvanceSeq (cfg : DeterministicConfigQ) (st : ClockState) :
    List ℚ → List (ℚ × ℕ) × ClockState
  | [] => ([], st)
  | d :: ds =>
    let r := clockAdvance cfg st d
    let rest := clockAdvanceSeq cfg r.2 ds
    (r.1 ++ rest.1, rest.2)

/-- Decidable predicate: no call in the delta sequence ever trips the
accumulator clamp (the pre-loop accumulator never exceeds
fixedTimestep × maxSubsteps). -/
def clockSeqNoClamp (cfg : DeterministicConfigQ) (st : ClockState) :
    List ℚ → Bool
  | [] => true
  | d :: ds =>
    decide (st.accumulator + d ≤ cfg.fixedTimestep * (cfg.maxSubsteps : ℚ)) &&
    clockSeqNoClamp cfg (clockAdvance cfg st d).2 ds

-- =============================================================================
-- Integrators (integrators.ts)
-- =============================================================================

/-- Integrator input (IntegratorState). -/
structure IntegStateQ where
  position : Vec3Q
  velocity : Vec3Q
  acceleration : Vec3Q
deriving DecidableEq, Repr

/-- Integrator output (IntegratorResult). -/
structure IntegResultQ where
  position : Vec3Q
  velocity : Vec3Q
deriving DecidableEq, Repr

/-- EulerIntegrator.integrate: forward Euler, old velocity for the position. -/
def eulerIntegrate (s : IntegStateQ) (dt : ℚ) : IntegResultQ :=
  let newVelocity := vadd s.velocity (vmul s.acceleration dt)
  let newPosition := vadd s.position (vmul s.velocity dt)
  ⟨newPosition, newVelocity⟩

/-- SemiImplicitEulerIntegrator.integrate: velocity first, new velocity for
the position. -/
def semiImplicitEulerIntegrate (s : IntegStateQ) (dt : ℚ) : IntegResultQ :=
  let newVelocity := vadd s.velocity (vmul s.acceleration dt)
  let newPosition := vadd s.position (vmul newVelocity dt)
  ⟨newPosition, newVelocity⟩

/-- VerletIntegrator.integrate.  The integrator instance owns one shared
prevAcceleration field (a single field of the class, not per-entity state);
it is passed in and the updated value is returned alongside the result. -/
def verletIntegrate (prevAcceleration : Vec3Q) (s : IntegStateQ) (dt : ℚ) :
    IntegResultQ × Vec3Q :=
  let dt2 := dt * dt
  let halfDt := dt * (1/2)
  let velTerm := vmul s.velocity dt
  let accTerm := vmul s.acceleration (dt2 * (1/2))
  let newPosition := vadd (vadd s.position velTerm) accTerm
  let avgAcc := vmul (vadd prevAcceleration s.acceleration) halfDt
  let newVelocity := vadd s.velocity avgAcc
  (⟨newPosition, newVelocity⟩, s.acceleration)

/-- RK4Integrator.integrate: four stages all sampling the same (constant)
acceleration, combined with the 1-2-2-1 weights. -/
def rk4Integrate (s : IntegStateQ) (dt : ℚ) : IntegResultQ :=
  let k1v := vmul s.acceleration dt
  let k1p := vmul s.velocity dt
  let k2v := vmul s.acceleration dt
  let k2p := vmul (vadd s.velocity (vmul k1v (1/2))) dt
  let k3v := vmul s.acceleration dt
  let k3p := vmul (vadd s.velocity (vmul k2v (1/2))) dt
  let k4v := vmul s.acceleration dt
  let k4p := vmul (vadd s.velocity k3v) dt
  let dv := vmul (vadd (vadd k1v (vmul k2v 2)) (vadd (vmul k3v 2) k4v)) (1/6)
  let dp := vmul (vadd (vadd k1p (vmul k2p 2)) (vadd (vmul k3p 2) k4p)) (1/6)
  ⟨vadd s.position dp, vadd s.velocity dv⟩

-- =============================================================================
-- Contact resolution (resolveContact in contacts.ts)
-- =============================================================================

/-- Velocity/position pair for one body in a resolution result. -/
structure BodyVP where
  velocity : Vec3Q
  position : Vec3Q
deriving DecidableEq, Repr

/-- PhysicsBody from contacts.ts. -/
structure PhysicsBodyQ where
  id : String
  position : Vec3Q
  velocity : Vec3Q
  angularVelocity : Vec3Q
  mass : ℚ
  inverseMass : ℚ
  friction : ℚ
  restitution : ℚ
  isStatic : Bool
deriving DecidableEq, Repr

/-- ContactPoint from contacts.ts. -/
structure ContactPointQ where
  position : Vec3Q
  normal : Vec3Q
  penetration : ℚ
  impulse : ℚ
  tangentImpulse : Vec3Q
deriving DecidableEq, Repr

/-- ContactResolutionResult from contacts.ts. -/
structure ContactResolutionResultQ where
  bodyA : BodyVP
  bodyB : BodyVP
  impulse : ℚ
deriving DecidableEq, Repr

/-- Impulse-based contact resolution (resolveContact): early-outs for
static/static, separating relative velocity, and zero inverse-mass sum;
otherwise normal impulse with restitution, then Baumgarte positional
correction with slop 0.01 and correction percent 0.8. -/
def resolveContact (a b : PhysicsBodyQ) (contact : ContactPointQ) :
    ContactResolutionResultQ :=
  if a.isStatic && b.isStatic then
    ⟨⟨a.velocity, a.position⟩, ⟨b.velocity, b.position⟩, 0⟩
  else
    let normal := contact.normal
    let relativeVelocity := vsub b.velocity a.velocity
    let velocityAlongNormal := vdot relativeVelocity normal
    if 0 < velocityAlongNormal then
      ⟨⟨a.velocity, a.position⟩, ⟨b.velocity, b.position⟩, 0⟩
    else
      let e := min a.restitution b.restitution
      let inverseMassSum := a.inverseMass + b.inverseMass
      if inverseMassSum = 0 then
        ⟨⟨a.velocity, a.position⟩, ⟨b.velocity, b.position⟩, 0⟩
      else
        let j := (-(1 + e) * velocityAlongNormal) / inverseMassSum
        let impulse := vmul normal j
        let newVelA := vsub a.velocity (vmul impulse a.inverseMass)
        let newVelB := vadd b.velocity (vmul impulse b.inverseMass)
        let percent := (8:ℚ)/10
        let slop := (1:ℚ)/100
        let correction :=
          vmul normal ((max (contact.penetration - slop) 0 / inverseMassSum) * percent)
        let newPosA :=
          if a.isStatic then a.position else vsub a.position (vmul correction a.inverseMass)
        let newPosB :=
          if b.isStatic then b.position else vadd b.position (vmul correction b.inverseMass)
        ⟨⟨newVelA, newPosA⟩, ⟨newVelB, newPosB⟩, j⟩

-- =============================================================================
-- Seeded random generator (SeededRandom in deterministic.ts)
-- =============================================================================

/-- The SeededRandom generator: mutable 32-bit-style state plus the original
seed and subsystem name, both read-only after construction. -/
structure SeededRandomQ where
  state : ℕ
  initialSeed : ℕ
  subsystem : String
deriving DecidableEq, Repr

/-- Math.imul: 32-bit integer multiplication at the bit-pattern level. -/
def imul32 (a b : ℕ) : ℕ :=
  (a * b) % 4294967296

/-- SeededRandom.next (Mulberry32): bumps the state by 0x6d2b79f5, then mixes
the low 32 bits of the new state with imul/xor/shift, returning the updated
generator together with the uniform value in [0, 1).  All JS bitwise steps
operate on the 32-bit pattern, so they are modelled on naturals below 2^32;
the state itself is an exact integer (the source stores a float, exact while
below 2^53). -/
def mulberryNext (s : SeededRandomQ) : SeededRandomQ × ℚ :=
  let state1 := s.state + 1831565813
  let t0 := state1 % 4294967296
  let t1 := imul32 (t0 ^^^ (t0 >>> 15)) (t0 ||| 1)
  let t2 := t1 ^^^ ((t1 + imul32 (t1 ^^^ (t1 >>> 7)) (t1 ||| 61)) % 4294967296)
  let out := t2 ^^^ (t2 >>> 14)
  ({ s with state := state1 }, (out : ℚ) / 4294967296)

/-- Truncation of an integer to a signed 32-bit value (the JS | 0). -/
def toInt32 (n : ℤ) : ℤ :=
  (n + 2147483648) % 4294967296 - 2147483648

/-- SeededRandom.hashString: the (hash << 5) - hash + charCode fold with
32-bit wrap after every step. -/
def hashStringJs (str : String) : ℤ :=
  str.data.foldl (fun h c => toInt32 (toInt32 (h * 32) - h + (c.toNat : ℤ))) 0

/-- SeededRandom.fork: builds a derived seed by hashing
initialSeed:subsystem:newSubsystem and constructs a fresh generator.  The
pair returned is (child, receiver after the call); the method body contains
no assignment to the receiver, which the frame theorem below records. -/
def forkJs (s : SeededRandomQ) (subsystem : String) : SeededRandomQ × SeededRandomQ :=
  let derivedSeed :=
    (hashStringJs (toString s.initialSeed ++ ":" ++ s.subsystem ++ ":" ++ subsystem)).natAbs
  (⟨derivedSeed, derivedSeed, subsystem⟩, s)

/-- The stream of the next n outputs of a generator. -/
def nextStream (s : SeededRandomQ) : ℕ → List ℚ
  | 0 => []
  | n + 1 => (mulberryNext s).2 :: nextStream (mulberryNext s).1 n

-- =============================================================================
-- Insertion-ordered string-keyed maps (the runtime shape of a JS Map)
-- =============================================================================

/-- Lookup in an insertion-ordered association list (Map.get). -/
def mapGet {α : Type} (m : List (String × α)) (k : String) : Option α :=
  (m.find? (fun p => p.1 == k)).map (fun p => p.2)

/-- Map.set: replaces the value in place when the key is present, otherwise
appends the binding, preserving JS Map insertion order. -/
def mapSet {α : Type} (m : List (String × α)) (k : String) (v : α) :
    List (String × α) :=
  match m with
  | [] => [(k, v)]
  | p :: rest => if p.1 == k then (k, v) :: rest else p :: mapSet rest k v

-- =============================================================================
-- State snapshots and serialization (state.ts)
-- =============================================================================

/-- A quaternion with rational components. -/
structure QuatQ where
  x : ℚ
  y : ℚ
  z : ℚ
  w : ℚ
deriving DecidableEq, Repr

/-- Transform from src/core/types.ts. -/
structure TransformQ where
  position : Vec3Q
  rotation : QuatQ
  scale : Vec3Q
deriving DecidableEq, Repr

/-- EntityState from src/core/types.ts.  The entity status union type is a
set of string literals at runtime, modelled as a string here; the untyped
customState record is not part of the compact serialized schema and is
omitted. -/
structure EntityStateQ where
  id : String
  transform : TransformQ
  velocity : Vec3Q
  angularVelocity : Vec3Q
  acceleration : Vec3Q
  status : String
deriving DecidableEq, Repr

/-- WorldState from src/core/types.ts. -/
structure WorldStateQ where
  time : ℚ
  gravity : Vec3Q
  bounds : AABBQ
  activeEntityCount : ℕ
  totalCollisions : ℕ
deriving DecidableEq, Repr

/-- StateSnapshot from src/core/types.ts; the entities ReadonlyMap is an
insertion-ordered association list. -/
structure StateSnapshotQ where
  version : ℕ
  timestamp : ℕ
  step : ℕ
  entities : List (String × EntityStateQ)
  worldState : WorldStateQ
  hash : String
deriving DecidableEq, Repr

/-- One entity record of the compact SerializedState schema. -/
structure SerializedEntityQ where
  id : String
  pos : ℚ × ℚ × ℚ
  rot : ℚ × ℚ × ℚ × ℚ
  vel : ℚ × ℚ × ℚ
  status : String
deriving DecidableEq, Repr

/-- The world record of the compact SerializedState schema. -/
structure SerializedWorldQ where
  time : ℚ
  gravity : ℚ × ℚ × ℚ
  collisions : ℕ
deriving DecidableEq, Repr

/-- SerializedState from state.ts. -/
structure SerializedStateQ where
  v : ℕ
  ts : ℕ
  step : ℕ
  entities : List SerializedEntityQ
  world : SerializedWorldQ
  hash : String
deriving DecidableEq, Repr

/-- The fixed default world bounds installed by deserializeState (also the
StateBuilder constructor default). -/
def defaultBoundsQ : AABBQ :=
  ⟨⟨-1000, -100, -1000⟩, ⟨1000, 1000, 1000⟩⟩

/-- serializeState: flattens each entity (in Map insertion order) to the
compact record and keeps version/timestamp/step/world data and the hash. -/
def serializeState (s : StateSnapshotQ) : SerializedStateQ :=
  { v := s.version
    ts := s.timestamp
    step := s.step
    entities := s.entities.map (fun p =>
      { id := p.2.id
        pos := (p.2.transform.position.x, p.2.transform.position.y, p.2.transform.position.z)
        rot := (p.2.transform.rotation.x, p.2.transform.rotation.y,
          p.2.transform.rotation.z, p.2.transform.rotation.w)
        vel := (p.2.velocity.x, p.2.velocity.y, p.2.velocity.z)
        status := p.2.status })
    world :=
      { time := s.worldState.time
        gravity := (s.worldState.gravity.x, s.worldState.gravity.y, s.worldState.gravity.z)
        collisions := s.worldState.totalCollisions }
    hash := s.hash }

/-- Rebuild of one EntityState by deserializeState: position, rotation,
velocity and status from the record; scale reset to one; angular velocity
and acceleration zeroed. -/
def deserializeEntity (e : SerializedEntityQ) : EntityStateQ :=
  { id := e.id
    transform :=
      { position := ⟨e.pos.1, e.pos.2.1, e.pos.2.2⟩
        rotation := ⟨e.rot.1, e.rot.2.1, e.rot.2.2.1, e.rot.2.2.2⟩
        scale := ⟨1, 1, 1⟩ }
    velocity := ⟨e.vel.1, e.vel.2.1, e.vel.2.2⟩
    angularVelocity := vzero
    acceleration := vzero
    status := e.status }

/-- deserializeState: re-inserts every entity keyed by its id, restores the
world record, resets the bounds to the fixed default and carries the hash. -/
def deserializeState (d : SerializedStateQ) : StateSnapshotQ :=
  let entities := d.entities.foldl (fun m e => mapSet m e.id (deserializeEntity e)) []
  { version := d.v
    timestamp := d.ts
    step := d.step
    entities := entities
    worldState :=
      { time := d.world.time
        gravity := ⟨d.world.gravity.1, d.world.gravity.2.1, d.world.gravity.2.2⟩
        bounds := defaultBoundsQ
        activeEntityCount := entities.length
        totalCollisions := d.world.collisions }
    hash := d.hash }

-- =============================================================================
-- Broadphase backends (broadphase.ts)
-- =============================================================================

/-- CollisionPair from broadphase.ts. -/
structure CollisionPairQ where
  entityA : String
  entityB : String
deriving DecidableEq, Repr

/-- BroadphaseResult from broadphase.ts. -/
structure BroadphaseResultQ where
  pairs : List CollisionPairQ
  checksPerformed : ℕ
deriving DecidableEq, Repr

/-- The canonical (min-id, max-id) pair used by the spatial-hash and
sweep-and-prune backends (the idA < idB conditional of the source). -/
def canonPair (a b : String) : CollisionPairQ :=
  if a < b then ⟨a, b⟩ else ⟨b, a⟩

/-- The colon-joined dedup key of the spatial-hash backend. -/
def pairKey (a b : String) : String :=
  if a < b then a ++ ":" ++ b else b ++ ":" ++ a

/-- Order-independent canonicalized view of an emitted pair list, as the
spec's broadphase equivalence compares the backends. -/
def canonSet (pairs : List CollisionPairQ) : Finset (String × String) :=
  (pairs.map (fun p =>
    if p.entityA < p.entityB then (p.entityA, p.entityB)
    else (p.entityB, p.entityA))).toFinset

/-- Nested i < j loop of SimpleBroadphase.queryPairs over the entries array:
pairs are pushed as ⟨idA, idB⟩ in raw iteration order, with no
canonicalization; the checks counter increments once per inner iteration. -/
def simplePairsLoop : List (String × AABBQ) → List CollisionPairQ × ℕ
  | [] => ([], 0)
  | e :: rest =>
    let inner := rest.filterMap (fun f =>
      if aabbIntersects e.2 f.2 then some ⟨e.1, f.1⟩ else none)
    let r := simplePairsLoop rest
    (inner ++ r.1, rest.length + r.2)

/-- SimpleBroadphase.queryPairs: the entities Map in insertion order is the
entries array; a SimpleBroadphase state built by insert/update calls is the
mapSet fold of those calls. -/
def simpleQueryPairs (entities : List (String × AABBQ)) : BroadphaseResultQ :=
  let r := simplePairsLoop entities
  ⟨r.1, r.2⟩

/-- SimpleBroadphase state after a sequence of inserts from empty. -/
def simpleFromList (L : List (String × AABBQ)) : List (String × AABBQ) :=
  L.foldl (fun m p => mapSet m p.1 p.2) []

/-- Integer range lo..hi inclusive (the nested for loops of
getCellsForBounds). -/
def intRange (lo hi : ℤ) : List ℤ :=
  (List.range (hi + 1 - lo).toNat).map (fun (i : ℕ) => lo + (i : ℤ))

/-- Cell key string x,y,z (template literal of getCellKey /
getCellsForBounds). -/
def cellKeyStr (x y z : ℤ) : String :=
  toString x ++ "," ++ toString y ++ "," ++ toString z

/-- SpatialHashBroadphase.getCellsForBounds: every cell the AABB overlaps,
by flooring each coordinate divided by the cell size, iterated x, then y,
then z. -/
def getCellsForBounds (cellSize : ℚ) (b : AABBQ) : List String :=
  let minX := Rat.floor (b.lo.x / cellSize)
  let maxX := Rat.floor (b.hi.x / cellSize)
  let minY := Rat.floor (b.lo.y / cellSize)
  let maxY := Rat.floor (b.hi.y / cellSize)
  let minZ := Rat.floor (b.lo.z / cellSize)
  let maxZ := Rat.floor (b.hi.z / cellSize)
  (intRange minX maxX).flatMap (fun x =>
    (intRange minY maxY).flatMap (fun y =>
      (intRange minZ maxZ).map (fun z => cellKeyStr x y z)))

/-- JS Set.add: appends when absent, keeps insertion order. -/
def setAdd (s : List String) (id : String) : List String :=
  if s.contains id then s else s ++ [id]

/-- Get-or-create of a cell set followed by Set.add, from
SpatialHashBroadphase.insert. -/
def cellsInsert (cells : List (String × List String)) (key id : String) :
    List (String × List String) :=
  match mapGet cells key with
  | some s => mapSet cells key (setAdd s id)
  | none => cells ++ [(key, [id])]

/-- State of SpatialHashBroadphase: cell size, the cells Map, the
entityBounds Map and the entityCells Map, each in insertion order. -/
structure SpatialHashStateQ where
  cellSize : ℚ
  cells : List (String × List String)
  entityBounds : List (String × AABBQ)
  entityCells : List (String × List String)
deriving DecidableEq, Repr

/-- SpatialHashBroadphase.insert. -/
def shInsert (st : SpatialHashStateQ) (id : String) (b : AABBQ) :
    SpatialHashStateQ :=
  let cellKeys := getCellsForBounds st.cellSize b
  { st with
    entityBounds := mapSet st.entityBounds id b
    entityCells := mapSet st.entityCells id cellKeys
    cells := cellKeys.foldl (fun cs k => cellsInsert cs k id) st.cells }

/-- SpatialHashBroadphase state after a sequence of inserts from empty. -/
def shFromList (cellSize : ℚ) (L : List (String × AABBQ)) : SpatialHashStateQ :=
  L.foldl (fun st p => shInsert st p.1 p.2) ⟨cellSize, [], [], []⟩

/-- Body of the inner j loop of SpatialHashBroadphase.queryPairs for a fixed
idA, threading the pairs Map and checks counter: consistent pair key, skip
when the key is present, count a check, then the full AABB test guarded on
both bounds lookups. -/
def shPairStep (bounds : List (String × AABBQ)) (idA : String)
    (ac : List (String × CollisionPairQ) × ℕ) (idB : String) :
    List (String × CollisionPairQ) × ℕ :=
  let key := pairKey idA idB
  if (mapGet ac.1 key).isSome then ac
  else
    match mapGet bounds idA, mapGet bounds idB with
    | some bA, some bB =>
      if aabbIntersects bA bB then
        (mapSet ac.1 key (canonPair idA idB), ac.2 + 1)
      else (ac.1, ac.2 + 1)
    | _, _ => (ac.1, ac.2 + 1)

/-- Nested i < j loop of SpatialHashBroadphase.queryPairs over one cell's id
set. -/
def shCellPairs (bounds : List (String × AABBQ)) :
    List String → List (String × CollisionPairQ) × ℕ →
      List (String × CollisionPairQ) × ℕ
  | [], acc => acc
  | idA :: rest, acc =>
    shCellPairs bounds rest (rest.foldl (shPairStep bounds idA) acc)

/-- SpatialHashBroadphase.queryPairs: iterates the cells Map in insertion
order and returns the deduplicated pair values plus the check count. -/
def shQueryPairs (st : SpatialHashStateQ) : BroadphaseResultQ :=
  let r := st.cells.foldl (fun acc cell => shCellPairs st.entityBounds cell.2 acc)
    ([], 0)
  ⟨r.1.map (fun p => p.2), r.2⟩

/-- SAPEntry from broadphase.ts. -/
structure SAPEntryQ where
  id : String
  bounds : AABBQ
  minX : ℚ
  maxX : ℚ
deriving DecidableEq, Repr

/-- State of SweepAndPruneBroadphase: the entries array and the id-to-index
map (maintained by insert/remove, unused by queryPairs). -/
structure SAPStateQ where
  entries : List SAPEntryQ
  entityMap : List (String × ℕ)
deriving DecidableEq, Repr

/-- SweepAndPruneBroadphase.insert. -/
def sapInsert (st : SAPStateQ) (id : String) (b : AABBQ) : SAPStateQ :=
  { entityMap := mapSet st.entityMap id st.entries.length
    entries := st.entries ++ [⟨id, b, b.lo.x, b.hi.x⟩] }

/-- SweepAndPruneBroadphase state after a sequence of inserts from empty. -/
def sapFromList (L : List (String × AABBQ)) : SAPStateQ :=
  L.foldl (fun st p => sapInsert st p.1 p.2) ⟨[], []⟩

/-- The nested loop of SweepAndPruneBroadphase.queryPairs after sorting: for
each entry, scan forward while the candidate minX is within the entry's
maxX (the break), count a check per candidate, and emit the canonicalized
pair after a full AABB test. -/
def sapPairsLoop : List SAPEntryQ → List CollisionPairQ × ℕ
  | [] => ([], 0)
  | a :: rest =>
    let cand := rest.takeWhile (fun b => b.minX ≤ a.maxX)
    let found := cand.filterMap (fun b =>
      if aabbIntersects a.bounds b.bounds then some (canonPair a.id b.id)
      else none)
    let r := sapPairsLoop rest
    (found ++ r.1, cand.length + r.2)

/-- SweepAndPruneBroadphase.queryPairs: sorts the entries by minX (the
source sorts in place with a stable comparator; only the sorted order
enters the pair scan) and runs the sweep. -/
def sapQueryPairs (st : SAPStateQ) : BroadphaseResultQ :=
  let sorted := st.entries.mergeSort (fun a b => a.minX ≤ b.minX)
  let r := sapPairsLoop sorted
  ⟨r.1, r.2⟩

/-- An id free of the colon character the pair-key template uses as its
separator. -/
def colonFree (s : String) : Bool :=
  s.data.all (fun c => c != ':')

/-- Per-axis well-formedness of an AABB (min ≤ max). -/
def aabbWF (b : AABBQ) : Bool :=
  b.lo.x ≤ b.hi.x && b.lo.y ≤ b.hi.y && b.lo.z ≤ b.hi.z

/-- Reference predicate for the broadphase equivalence proofs: two distinct
ids present in the insertion list whose AABBs overlap. -/
def collidesIn (L : List (String × AABBQ)) (x y : String) : Prop :=
  x ≠ y ∧ ∃ bx byy, (x, bx) ∈ L ∧ (y, byy) ∈ L ∧ aabbIntersects bx byy = true

/-- Ordered-pair canonical form of two ids, the element a pair contributes
to a canonSet. -/
def cpo (a b : String) : String × String :=
  if a < b then (a, b) else (b, a)

/-- Invariant of the spatial-hash pairs accumulator: every stored entry is a
canonicalized pair of two distinct ids whose bounds are present and overlap,
keyed by the colon-joined pair key. -/
def pairsWF (B : List (String × AABBQ)) (pairs : List (String × CollisionPairQ)) : Prop :=
  ∀ e ∈ pairs, ∃ a b bA bB, a ≠ b ∧ mapGet B a = some bA ∧ mapGet B b = some bB ∧
    aabbIntersects bA bB = true ∧ e.2 = canonPair a b ∧ e.1 = pairKey a b

-- =============================================================================
-- SimulationRuntime.physicsStep with the verlet integrator (runtime.ts)
-- =============================================================================

/-- The slice of an Entity that physicsStep and computeStepHash read and
write: id, type, position, velocity, status and the maxVelocity property. -/
structure EntityQ where
  id : String
  etype : String
  position : Vec3Q
  velocity : Vec3Q
  status : String
  maxVelocity : Option ℚ
deriving DecidableEq, Repr

/-- SimulationRuntime.physicsStep when config.integrator is the verlet
instance: iterates the entities Map in insertion order, skipping disabled
and obstacle entities, hovers drones (zero y acceleration), integrates,
applies 0.99 damping, clamps to maxVelocity (default 100), and sets the
moving/idle status; the single VerletIntegrator instance threads its shared
prevAcceleration field through every call, which this definition makes
explicit in the accumulator. -/
def physicsStepVerlet (sq : ℚ → ℚ) (gravity : Vec3Q) (dt : ℚ) :
    List EntityQ → Vec3Q → List EntityQ × Vec3Q
  | [], prev => ([], prev)
  | e :: rest, prev =>
    if e.status = "disabled" ∨ e.etype = "obstacle" then
      let r := physicsStepVerlet sq gravity dt rest prev
      (e :: r.1, r.2)
    else
      let acc : Vec3Q :=
        ⟨gravity.x, if e.etype = "drone" then 0 else gravity.y, gravity.z⟩
      let res := verletIntegrate prev ⟨e.position, e.velocity, acc⟩ dt
      let damped := vmul res.1.velocity (99/100)
      let maxVel := match e.maxVelocity with
        | some m => m
        | none => 100
      let speed := vlength sq damped
      let clamped := if speed > maxVel then vmul (vnormalize sq damped) maxVel
        else damped
      let st := if vlengthSq clamped > 1/100 then "moving" else "idle"
      let r := physicsStepVerlet sq gravity dt rest res.2
      ({ e with position := res.1.position
                velocity := clamped
                status := st } :: r.1, r.2)

/-- The data computeStepHash feeds into the hash, in hashing order: the
entity list sorted by id, each contributing its position and velocity. -/
def stepHashInput (es : List EntityQ) : List (String × Vec3Q × Vec3Q) :=
  (es.mergeSort (fun a b => a.id ≤ b.id)).map (fun e =>
    (e.id, e.position, e.velocity))

-- =============================================================================
-- JS extended numbers (NaN / ±Infinity) and the raycasts (narrowphase.ts)
-- =============================================================================

/-- A JS number as it appears in the raycast code paths: NaN, +Infinity,
-Infinity, or a finite value (kept exact as a rational). -/
inductive XR where
  | nan : XR
  | pinf : XR
  | ninf : XR
  | q : ℚ → XR
deriving DecidableEq, Repr

/-- JS unary minus on extended numbers. -/
def jsNeg : XR → XR
  | XR.nan => XR.nan
  | XR.pinf => XR.ninf
  | XR.ninf => XR.pinf
  | XR.q a => XR.q (-a)

/-- JS addition: NaN propagates, opposite infinities give NaN. -/
def jsAdd : XR → XR → XR
  | XR.nan, _ => XR.nan
  | _, XR.nan => XR.nan
  | XR.pinf, XR.ninf => XR.nan
  | XR.ninf, XR.pinf => XR.nan
  | XR.pinf, _ => XR.pinf
  | _, XR.pinf => XR.pinf
  | XR.ninf, _ => XR.ninf
  | _, XR.ninf => XR.ninf
  | XR.q a, XR.q b => XR.q (a + b)

/-- JS subtraction. -/
def jsSub (a b : XR) : XR :=
  jsAdd a (jsNeg b)

/-- JS multiplication: NaN propagates, zero times an infinity is NaN,
otherwise infinities follow the sign rules. -/
def jsMul : XR → XR → XR
  | XR.nan, _ => XR.nan
  | _, XR.nan => XR.nan
  | XR.pinf, XR.pinf => XR.pinf
  | XR.pinf, XR.ninf => XR.ninf
  | XR.ninf, XR.pinf => XR.ninf
  | XR.ninf, XR.ninf => XR.pinf
  | XR.pinf, XR.q b => if 0 < b then XR.pinf else if b < 0 then XR.ninf else XR.nan
  | XR.q a, XR.pinf => if 0 < a then XR.pinf else if a < 0 then XR.ninf else XR.nan
  | XR.ninf, XR.q b => if 0 < b then XR.ninf else if b < 0 then XR.pinf else XR.nan
  | XR.q a, XR.ninf => if 0 < a then XR.ninf else if a < 0 then XR.pinf else XR.nan
  | XR.q a, XR.q b => XR.q (a * b)

/-- JS division of two finite values: a nonzero value divided by zero gives a
signed infinity, 0/0 gives NaN (there is no negative zero in this model). -/
def jsDivQ (a b : ℚ) : XR :=
  if b = 0 then
    if 0 < a then XR.pinf else if a < 0 then XR.ninf else XR.nan
  else XR.q (a / b)

/-- JS division on extended numbers (used by Vec3.div inside normalize). -/
def jsDiv : XR → XR → XR
  | XR.nan, _ => XR.nan
  | _, XR.nan => XR.nan
  | XR.pinf, XR.pinf => XR.nan
  | XR.pinf, XR.ninf => XR.nan
  | XR.ninf, XR.pinf => XR.nan
  | XR.ninf, XR.ninf => XR.nan
  | XR.pinf, XR.q b => if b < 0 then XR.ninf else XR.pinf
  | XR.ninf, XR.q b => if b < 0 then XR.pinf else XR.ninf
  | XR.q _, XR.pinf => XR.q 0
  | XR.q _, XR.ninf => XR.q 0
  | XR.q a, XR.q b => jsDivQ a b

/-- Math.min: NaN propagates, otherwise the usual order with infinities. -/
def jsMin : XR → XR → XR
  | XR.nan, _ => XR.nan
  | _, XR.nan => XR.nan
  | XR.ninf, _ => XR.ninf
  | _, XR.ninf => XR.ninf
  | XR.pinf, b => b
  | a, XR.pinf => a
  | XR.q a, XR.q b => XR.q (min a b)

/-- Math.max: NaN propagates, otherwise the usual order with infinities. -/
def jsMax : XR → XR → XR
  | XR.nan, _ => XR.nan
  | _, XR.nan => XR.nan
  | XR.pinf, _ => XR.pinf
  | _, XR.pinf => XR.pinf
  | XR.ninf, b => b
  | a, XR.ninf => a
  | XR.q a, XR.q b => XR.q (max a b)

/-- JS strict less-than: any comparison against NaN is false. -/
def jsLt : XR → XR → Bool
  | XR.nan, _ => false
  | _, XR.nan => false
  | XR.ninf, XR.ninf => false
  | XR.ninf, _ => true
  | _, XR.ninf => false
  | XR.pinf, _ => false
  | _, XR.pinf => true
  | XR.q a, XR.q b => decide (a < b)

/-- JS less-or-equal: any comparison against NaN is false. -/
def jsLe : XR → XR → Bool
  | XR.nan, _ => false
  | _, XR.nan => false
  | XR.ninf, _ => true
  | _, XR.ninf => false
  | _, XR.pinf => true
  | XR.pinf, _ => false
  | XR.q a, XR.q b => decide (a ≤ b)

/-- Math.abs on extended numbers. -/
def xabs : XR → XR
  | XR.nan => XR.nan
  | XR.pinf => XR.pinf
  | XR.ninf => XR.pinf
  | XR.q a => XR.q |a|

/-- Math.sqrt on extended numbers: NaN for negative input and NaN, +Infinity
for +Infinity; on a nonnegative rational it is abstracted by the parameter
sq, as elsewhere in this development. -/
def xsqrt (sq : ℚ → ℚ) : XR → XR
  | XR.nan => XR.nan
  | XR.pinf => XR.pinf
  | XR.ninf => XR.nan
  | XR.q a => if a < 0 then XR.nan else XR.q (sq a)

/-- NaN test. -/
def xrIsNaN : XR → Bool
  | XR.nan => true
  | _ => false

/-- A vector of JS extended numbers. -/
structure XRVec3 where
  x : XR
  y : XR
  z : XR
deriving DecidableEq, Repr

/-- Lift an exact rational vector into extended numbers. -/
def qv (v : Vec3Q) : XRVec3 :=
  ⟨XR.q v.x, XR.q v.y, XR.q v.z⟩

/-- Componentwise Vec3.add over extended numbers. -/
def xvadd (a b : XRVec3) : XRVec3 :=
  ⟨jsAdd a.x b.x, jsAdd a.y b.y, jsAdd a.z b.z⟩

/-- Componentwise Vec3.sub over extended numbers. -/
def xvsub (a b : XRVec3) : XRVec3 :=
  ⟨jsSub a.x b.x, jsSub a.y b.y, jsSub a.z b.z⟩

/-- Vec3.mul (scalar) over extended numbers. -/
def xvmul (a : XRVec3) (t : XR) : XRVec3 :=
  ⟨jsMul a.x t, jsMul a.y t, jsMul a.z t⟩

/-- Vec3.div (scalar) over extended numbers. -/
def xvdiv (a : XRVec3) (t : XR) : XRVec3 :=
  ⟨jsDiv a.x t, jsDiv a.y t, jsDiv a.z t⟩

/-- Vec3.dot over extended numbers. -/
def xvdot (a b : XRVec3) : XR :=
  jsAdd (jsAdd (jsMul a.x b.x) (jsMul a.y b.y)) (jsMul a.z b.z)

/-- Vec3.normalize over extended numbers: length via Math.sqrt, the exact
zero-length guard of the source, then componentwise division. -/
def xnormalize (sq : ℚ → ℚ) (v : XRVec3) : XRVec3 :=
  let len := xsqrt sq (xvdot v v)
  if len = XR.q 0 then ⟨XR.q 0, XR.q 0, XR.q 0⟩ else xvdiv v len

/-- RaycastResult: hit flag plus the optional distance/point/normal fields. -/
structure RaycastResultX where
  hit : Bool
  distance : Option XR
  point : Option XRVec3
  normal : Option XRVec3
deriving DecidableEq, Repr

/-- raycastSphere from narrowphase.ts: quadratic setup in exact rationals,
then the root selection and guards with JS division and comparison
semantics. -/
def raycastSphere (sq : ℚ → ℚ) (origin direction center : Vec3Q)
    (radius maxDistance : ℚ) : RaycastResultX :=
  let oc := vsub origin center
  let a := vdot direction direction
  let b := 2 * vdot oc direction
  let c := vdot oc oc - radius * radius
  let discriminant := b * b - 4 * a * c
  if discriminant < 0 then ⟨false, none, none, none⟩
  else
    let sqrtD := sq discriminant
    let t0 := jsDivQ (-b - sqrtD) (2 * a)
    let t := if jsLt t0 (XR.q 0) then jsDivQ (-b + sqrtD) (2 * a) else t0
    if jsLt t (XR.q 0) || jsLt (XR.q maxDistance) t then ⟨false, none, none, none⟩
    else
      let point := xvadd (qv origin) (xvmul (qv direction) t)
      let normal := xnormalize sq (xvsub point (qv center))
      ⟨true, some t, some point, some normal⟩

/-- raycastAabb from narrowphase.ts: slab method with Infinity inverse
directions for zero components, JS min/max NaN propagation, the three-way
miss guard, the tmin/tmax selection and the face-normal scan. -/
def raycastAabb (origin direction : Vec3Q) (bounds : AABBQ)
    (maxDistance : ℚ) : RaycastResultX :=
  let invx := if direction.x ≠ 0 then XR.q (1 / direction.x) else XR.pinf
  let invy := if direction.y ≠ 0 then XR.q (1 / direction.y) else XR.pinf
  let invz := if direction.z ≠ 0 then XR.q (1 / direction.z) else XR.pinf
  let t1 := jsMul (XR.q (bounds.lo.x - origin.x)) invx
  let t2 := jsMul (XR.q (bounds.hi.x - origin.x)) invx
  let t3 := jsMul (XR.q (bounds.lo.y - origin.y)) invy
  let t4 := jsMul (XR.q (bounds.hi.y - origin.y)) invy
  let t5 := jsMul (XR.q (bounds.lo.z - origin.z)) invz
  let t6 := jsMul (XR.q (bounds.hi.z - origin.z)) invz
  let tmin := jsMax (jsMax (jsMin t1 t2) (jsMin t3 t4)) (jsMin t5 t6)
  let tmax := jsMin (jsMin (jsMax t1 t2) (jsMax t3 t4)) (jsMax t5 t6)
  if jsLt tmax (XR.q 0) || jsLt tmax tmin || jsLt (XR.q maxDistance) tmin then
    ⟨false, none, none, none⟩
  else
    let t := if jsLe (XR.q 0) tmin then tmin else tmax
    let point := xvadd (qv origin) (xvmul (qv direction) t)
    let eps : ℚ := 1 / 10000
    let normal : XRVec3 :=
      if jsLt (xabs (jsSub point.x (XR.q bounds.lo.x))) (XR.q eps) then
        qv ⟨-1, 0, 0⟩
      else if jsLt (xabs (jsSub point.x (XR.q bounds.hi.x))) (XR.q eps) then
        qv ⟨1, 0, 0⟩
      else if jsLt (xabs (jsSub point.y (XR.q bounds.lo.y))) (XR.q eps) then
        qv ⟨0, -1, 0⟩
      else if jsLt (xabs (jsSub point.y (XR.q bounds.hi.y))) (XR.q eps) then
        qv ⟨0, 1, 0⟩
      else if jsLt (xabs (jsSub point.z (XR.q bounds.lo.z))) (XR.q eps) then
        qv ⟨0, 0, -1⟩
      else qv ⟨0, 0, 1⟩
    ⟨true, some t, some point, some normal⟩

/-- No component of a vector of extended numbers is NaN. -/
def xvNoNaN (v : XRVec3) : Bool :=
  !xrIsNaN v.x && !xrIsNaN v.y && !xrIsNaN v.z

/-- No NaN anywhere in a raycast result. -/
def resNoNaN (r : RaycastResultX) : Bool :=
  (match r.distance with
   | none => true
   | some d => !xrIsNaN d) &&
  (match r.point with
   | none => true
   | some p => xvNoNaN p) &&
  (match r.normal with
   | none => true
   | some n => xvNoNaN n)

-- =============================================================================
-- Theorems: deterministic clock
-- =============================================================================

theorem clockLoopGo_spec (ft : ℚ) (hft : 0 < ft) :
    ∀ (fuel : ℕ) (acc : ℚ) (step : ℕ), acc < ft * fuel →
      (clockLoopGo ft fuel acc step).2.1 =
        acc - ft * (clockLoopGo ft fuel acc step).1.length ∧
      (clockLoopGo ft fuel acc step).2.1 < ft ∧
      (0 ≤ acc → 0 ≤ (clockLoopGo ft fuel acc step).2.1) ∧
      (clockLoopGo ft fuel acc step).2.2 =
        step + (clockLoopGo ft fuel acc step).1.length := by
  intro fuel
  induction fuel with
  | zero =>
    intro acc step h
    simp only [Nat.cast_zero, mul_zero] at h
    refine ⟨by simp [clockLoopGo], by simp [clockLoopGo]; linarith, ?_, by simp [clockLoopGo]⟩
    intro h0
    exact absurd h (not_lt.mpr h0)
  | succ n ih =>
    intro acc step h
    by_cases hc : ft ≤ acc
    · have hrec : acc - ft < ft * n := by
        push_cast at h ⊢
        linarith
      obtain ⟨h1, h2, h3, h4⟩ := ih (acc - ft) (step + 1) hrec
      simp only [clockLoopGo, if_pos hc, List.length_cons]
      refine ⟨?_, h2, ?_, ?_⟩
      · rw [h1]; push_cast; ring
      · intro _
        exact h3 (by linarith)
      · rw [h4]; omega
    · simp only [clockLoopGo, if_neg hc]
      push_neg at hc
      exact ⟨by simp, by simpa using hc, fun h0 => h0, by simp⟩

theorem ratFloor_eq_intFloor (q : ℚ) : Rat.floor q = ⌊q⌋ := by
  rw [Rat.floor_def', Rat.floor_def]

theorem clockLoop_fuel_enough (ft : ℚ) (hft : 0 < ft) (acc : ℚ) :
    acc < ft * (((Rat.floor (acc / ft)).toNat : ℕ) + 1 : ℕ) := by
  rw [ratFloor_eq_intFloor]
  rcases le_or_lt 0 acc with h0 | h0
  · have hq : 0 ≤ acc / ft := div_nonneg h0 hft.le
    have h1 : acc / ft < ((⌊acc / ft⌋ : ℤ) : ℚ) + 1 := Int.lt_floor_add_one _
    have hc : ((⌊acc / ft⌋.toNat : ℕ) : ℚ) = ((⌊acc / ft⌋ : ℤ) : ℚ) := by
      exact_mod_cast Int.toNat_of_nonneg (Int.floor_nonneg.mpr hq)
    have h3 : acc / ft < ((⌊acc / ft⌋.toNat : ℕ) : ℚ) + 1 := by
      rw [hc]; exact h1
    have h4 := (div_lt_iff₀ hft).mp h3
    push_cast
    rw [mul_comm]
    push_cast at h4
    linarith
  · have hpos : (0:ℚ) < ft * (((⌊acc / ft⌋.toNat : ℕ) : ℚ) + 1) := by positivity
    push_cast
    push_cast at hpos
    linarith

theorem clockLoop_spec (ft : ℚ) (hft : 0 < ft) (acc : ℚ) (step : ℕ) :
    (clockLoop ft acc step).2.1 = acc - ft * (clockLoop ft acc step).1.length ∧
    (clockLoop ft acc step).2.1 < ft ∧
    (0 ≤ acc → 0 ≤ (clockLoop ft acc step).2.1) ∧
    (clockLoop ft acc step).2.2 = step + (clockLoop ft acc step).1.length := by
  exact clockLoopGo_spec ft hft _ acc step (clockLoop_fuel_enough ft hft acc)

theorem clockLoop_nil_of_lt (ft acc : ℚ) (step : ℕ) (h : ¬ ft ≤ acc) :
    (clockLoop ft acc step).1 = [] := by
  simp [clockLoop, clockLoopGo, h]

theorem clockLoop_length_le (ft : ℚ) (hft : 0 < ft) (acc : ℚ) (step n : ℕ)
    (h : acc ≤ ft * n) :
    (clockLoop ft acc step).1.length ≤ n := by
  rcases le_or_lt 0 acc with h0 | h0
  · obtain ⟨h1, _, h3, _⟩ := clockLoop_spec ft hft acc step
    have h4 := h3 h0
    by_contra hgt
    push_neg at hgt
    have hlen : (n : ℚ) + 1 ≤ ((clockLoop ft acc step).1.length : ℚ) := by
      exact_mod_cast hgt
    nlinarith
  · have : (clockLoop ft acc step).1 = [] :=
      clockLoop_nil_of_lt ft acc step (by linarith)
    simp [this]

/-- C3: a single advance call, whatever the delta, invokes the step callback
at most maxSubsteps times and returns a step count of at most maxSubsteps,
because the accumulator is clamped to fixedTimestep × maxSubsteps before the
loop runs.  The returned invocation list has one entry per callback call and
its length is the returned stepsTaken. -/
theorem clockAdvance_le_maxSubsteps (cfg : DeterministicConfigQ)
    (st : ClockState) (dt : ℚ) (hft : 0 < cfg.fixedTimestep) :
    ((clockAdvance cfg st dt).1).length ≤ cfg.maxSubsteps := by
  have hgen : ∀ acc : ℚ, acc ≤ cfg.fixedTimestep * (cfg.maxSubsteps : ℚ) →
      (clockLoop cfg.fixedTimestep acc st.currentStep).1.length ≤ cfg.maxSubsteps :=
    fun acc h => clockLoop_length_le cfg.fixedTimestep hft acc st.currentStep _ h
  simp only [clockAdvance]
  split_ifs with h
  · exact hgen _ le_rfl
  · push_neg at h
    exact hgen _ h

/-- Witness for C3 at the spec example: fixedTimestep 0.016 = 2/125,
maxSubsteps 10, one advance of 10 seconds from a fresh runtime. -/
theorem clockAdvance_le_maxSubsteps_witness :
    (0:ℚ) < (2/125 : ℚ) ∧
    ((clockAdvance ⟨2/125, 10, true, true⟩ ⟨0, 0⟩ 10).1).length ≤ 10 :=
  ⟨by norm_num, clockAdvance_le_maxSubsteps ⟨2/125, 10, true, true⟩ ⟨0, 0⟩ 10 (by norm_num)⟩

/-- C4 counterexample.  In the exact arithmetic of the source algorithm the
spec example [0.005, 0.011, 0.016, 0.016] with fixedTimestep 0.016 sums to
exactly 3 timesteps and advance takes exactly 3 steps, not the 2 steps the
claim asserts (the 2-step figure only arises from IEEE rounding of
0.005 + 0.011).  Moreover the always-exactly-k assertion fails outright when
a single delta overflows the accumulator clamp: a delta of 10 = 625 × 0.016
yields 10 steps, not 625. -/
theorem clockAdvanceSeq_exact_k_false :
    (((clockAdvanceSeq ⟨2/125, 10, true, true⟩ ⟨0, 0⟩
        [1/200, 11/1000, 2/125, 2/125]).1).length = 3 ∧
      (1/200 + 11/1000 + 2/125 + 2/125 : ℚ) = 3 * (2/125) ∧ (3 : ℕ) ≠ 2) ∧
    (((clockAdvanceSeq ⟨2/125, 10, true, true⟩ ⟨0, 0⟩ [10]).1).length = 10 ∧
      (10 : ℚ) = 625 * (2/125) ∧ (10 : ℕ) ≠ 625) := by
  refine ⟨⟨?_, by norm_num, by decide⟩, ⟨?_, by norm_num, by decide⟩⟩
  · norm_num [clockAdvanceSeq, clockAdvance, clockLoop, clockLoopGo]
  · norm_num [clockAdvanceSeq, clockAdvance, clockLoop, clockLoopGo]

theorem clockAdvanceSeq_invariant (cfg : DeterministicConfigQ)
    (hft : 0 < cfg.fixedTimestep) :
    ∀ (deltas : List ℚ) (st : ClockState),
      0 ≤ st.accumulator → st.accumulator < cfg.fixedTimestep →
      (∀ d ∈ deltas, 0 ≤ d) → clockSeqNoClamp cfg st deltas = true →
      (clockAdvanceSeq cfg st deltas).2.accumulator =
        st.accumulator + deltas.sum -
          cfg.fixedTimestep * ((clockAdvanceSeq cfg st deltas).1.length) ∧
      0 ≤ (clockAdvanceSeq cfg st deltas).2.accumulator ∧
      (clockAdvanceSeq cfg st deltas).2.accumulator < cfg.fixedTimestep := by
  intro deltas
  induction deltas with
  | nil =>
    intro st h0 hlt _ _
    refine ⟨?_, h0, hlt⟩
    simp [clockAdvanceSeq]
  | cons d ds ih =>
    intro st h0 hlt hnn hnc
    simp only [clockSeqNoClamp, Bool.and_eq_true, decide_eq_true_eq] at hnc
    obtain ⟨hclamp, hnc2⟩ := hnc
    have hd : 0 ≤ d := hnn d (List.mem_cons_self d ds)
    have hnn2 : ∀ x ∈ ds, 0 ≤ x := fun x hx => hnn x (List.mem_cons_of_mem d hx)
    -- the single advance call does not clamp
    have hnoclamp : ¬ (cfg.fixedTimestep * (cfg.maxSubsteps : ℚ) < st.accumulator + d) :=
      not_lt.mpr hclamp
    have hspec := clockLoop_spec cfg.fixedTimestep hft (st.accumulator + d) st.currentStep
    have hadv1 : (clockAdvance cfg st d).1 =
        (clockLoop cfg.fixedTimestep (st.accumulator + d) st.currentStep).1 := by
      simp only [clockAdvance, if_neg hnoclamp]
    have hadv2 : (clockAdvance cfg st d).2.accumulator =
        (clockLoop cfg.fixedTimestep (st.accumulator + d) st.currentStep).2.1 := by
      simp only [clockAdvance, if_neg hnoclamp]
    obtain ⟨he, hltf, hge, _⟩ := hspec
    have hge2 := hge (by linarith)
    have ihspec := ih (clockAdvance cfg st d).2 (by rw [hadv2]; exact hge2)
      (by rw [hadv2]; exact hltf) hnn2 hnc2
    obtain ⟨ihe, ihge, ihlt⟩ := ihspec
    refine ⟨?_, ihge, ihlt⟩
    simp only [clockAdvanceSeq, List.sum_cons, List.length_append]
    rw [ihe, hadv2, he, hadv1]
    push_cast
    ring

/-- C4 amended: over the exact arithmetic of the algorithm, feeding a fresh
deterministic clock any sequence of nonnegative wall-clock deltas that sums
to exactly k × fixedTimestep yields exactly k invoked steps across the
calls, with a zero leftover accumulator, provided no single call overflows
the fixedTimestep × maxSubsteps accumulator clamp.  On the spec example the
exact step count is 3 (= k), not 2; the clamp and IEEE rounding are the two
effects the original claim ignored. -/
theorem clockAdvanceSeq_exact_k (cfg : DeterministicConfigQ)
    (deltas : List ℚ) (k : ℕ) (hft : 0 < cfg.fixedTimestep)
    (hnn : ∀ d ∈ deltas, 0 ≤ d)
    (hnc : clockSeqNoClamp cfg ⟨0, 0⟩ deltas = true)
    (hsum : deltas.sum = (k : ℚ) * cfg.fixedTimestep) :
    ((clockAdvanceSeq cfg ⟨0, 0⟩ deltas).1).length = k ∧
    (clockAdvanceSeq cfg ⟨0, 0⟩ deltas).2.accumulator = 0 := by
  obtain ⟨he, hge, hlt⟩ :=
    clockAdvanceSeq_invariant cfg hft deltas ⟨0, 0⟩ le_rfl hft hnn hnc
  set L := ((clockAdvanceSeq cfg ⟨0, 0⟩ deltas).1).length with hL
  have hacc : (clockAdvanceSeq cfg ⟨0, 0⟩ deltas).2.accumulator =
      cfg.fixedTimestep * ((k : ℚ) - (L : ℚ)) := by
    rw [he, hsum]
    push_cast
    ring
  rw [hacc] at hge hlt
  have h1 : (0:ℚ) ≤ (k : ℚ) - (L : ℚ) := nonneg_of_mul_nonneg_right hge hft
  have h2 : (k : ℚ) - (L : ℚ) < 1 := by
    by_contra hcon
    push_neg at hcon
    nlinarith
  have hkL : L = k := by
    have hk1 : (L : ℚ) ≤ (k : ℚ) := by linarith
    have hk2 : (k : ℚ) < (L : ℚ) + 1 := by linarith
    have := Nat.cast_le (α := ℚ) |>.mp hk1
    have h4 : k < L + 1 := by exact_mod_cast hk2
    omega
  refine ⟨hkL, ?_⟩
  rw [hacc, hkL]
  ring

/-- Witness for C4 amended at the spec example deltas with k = 3. -/
theorem clockAdvanceSeq_exact_k_witness :
    (0:ℚ) < (2/125 : ℚ) ∧
    (∀ d ∈ [1/200, 11/1000, 2/125, (2/125 : ℚ)], 0 ≤ d) ∧
    clockSeqNoClamp ⟨2/125, 10, true, true⟩ ⟨0, 0⟩
      [1/200, 11/1000, 2/125, 2/125] = true ∧
    ([1/200, 11/1000, 2/125, (2/125 : ℚ)].sum = ((3:ℕ) : ℚ) * (2/125)) ∧
    (((clockAdvanceSeq ⟨2/125, 10, true, true⟩ ⟨0, 0⟩
        [1/200, 11/1000, 2/125, 2/125]).1).length = 3 ∧
      (clockAdvanceSeq ⟨2/125, 10, true, true⟩ ⟨0, 0⟩
        [1/200, 11/1000, 2/125, 2/125]).2.accumulator = 0) :=
  ⟨by norm_num, by norm_num, by norm_num [clockSeqNoClamp, clockAdvance, clockLoop, clockLoopGo],
    by norm_num,
    clockAdvanceSeq_exact_k ⟨2/125, 10, true, true⟩
      [1/200, 11/1000, 2/125, 2/125] 3 (by norm_num) (by norm_num)
      (by norm_num [clockSeqNoClamp, clockAdvance, clockLoop, clockLoopGo])
      (by norm_num)⟩

-- =============================================================================
-- Theorems: integrators
-- =============================================================================

/-- C10: with the four stages sampling one constant acceleration, RK4
collapses to velocity v + a·dt and position p + v·dt + a·dt²/2, and its
position differs from semi-implicit Euler (p + v·dt + a·dt²) by exactly
a·dt²/2 — semi-implicit Euler overshoots RK4 by that amount whenever
a·dt² is nonzero. -/
theorem rk4_closed_form_and_sie_diff (s : IntegStateQ) (dt : ℚ) :
    rk4Integrate s dt =
      ⟨vadd s.position (vadd (vmul s.velocity dt) (vmul s.acceleration (dt * dt / 2))),
        vadd s.velocity (vmul s.acceleration dt)⟩ ∧
    vsub (semiImplicitEulerIntegrate s dt).position (rk4Integrate s dt).position =
      vmul s.acceleration (dt * dt / 2) := by
  obtain ⟨⟨px, py, pz⟩, ⟨vx, vy, vz⟩, ⟨ax, ay, az⟩⟩ := s
  refine ⟨?_, ?_⟩
  · simp only [rk4Integrate, vadd, vmul, IntegResultQ.mk.injEq, Vec3Q.mk.injEq]
    and_intros <;> ring
  · simp only [rk4Integrate, semiImplicitEulerIntegrate, vadd, vmul, vsub,
      Vec3Q.mk.injEq]
    and_intros <;> ring

-- =============================================================================
-- Theorems: contact resolution
-- =============================================================================

/-- C5: resolving a contact between two static bodies, or two bodies whose
relative velocity along the contact normal is separating (dot > 0), returns
impulse 0 and leaves both velocities unchanged. -/
theorem resolveContact_no_impulse (a b : PhysicsBodyQ) (c : ContactPointQ)
    (h : (a.isStatic = true ∧ b.isStatic = true) ∨
      0 < vdot (vsub b.velocity a.velocity) c.normal) :
    (resolveContact a b c).impulse = 0 ∧
    (resolveContact a b c).bodyA.velocity = a.velocity ∧
    (resolveContact a b c).bodyB.velocity = b.velocity := by
  rcases h with ⟨ha, hb⟩ | hsep
  · simp [resolveContact, ha, hb]
  · by_cases hs : a.isStatic && b.isStatic
    · simp [resolveContact, hs]
    · simp [resolveContact, hs, hsep]

/-- Witness for C5: two static unit-mass bodies in contact. -/
theorem resolveContact_no_impulse_witness :
    ((true = true ∧ true = true) ∨
      0 < vdot (vsub vzero vzero) ⟨0, 1, 0⟩) ∧
    ((resolveContact ⟨"a", vzero, vzero, vzero, 1, 0, 1/2, 1/2, true⟩
        ⟨"b", ⟨1, 0, 0⟩, vzero, vzero, 1, 0, 1/2, 1/2, true⟩
        ⟨⟨1/2, 0, 0⟩, ⟨0, 1, 0⟩, 1/10, 0, vzero⟩).impulse = 0 ∧
      (resolveContact ⟨"a", vzero, vzero, vzero, 1, 0, 1/2, 1/2, true⟩
        ⟨"b", ⟨1, 0, 0⟩, vzero, vzero, 1, 0, 1/2, 1/2, true⟩
        ⟨⟨1/2, 0, 0⟩, ⟨0, 1, 0⟩, 1/10, 0, vzero⟩).bodyA.velocity = vzero ∧
      (resolveContact ⟨"a", vzero, vzero, vzero, 1, 0, 1/2, 1/2, true⟩
        ⟨"b", ⟨1, 0, 0⟩, vzero, vzero, 1, 0, 1/2, 1/2, true⟩
        ⟨⟨1/2, 0, 0⟩, ⟨0, 1, 0⟩, 1/10, 0, vzero⟩).bodyB.velocity = vzero) := by
  refine ⟨Or.inl ⟨rfl, rfl⟩, ?_⟩
  exact resolveContact_no_impulse _ _ _ (Or.inl ⟨rfl, rfl⟩)

-- =============================================================================
-- Theorems: seeded random fork
-- =============================================================================

/-- C7: forking a generator for a subsystem returns the receiver unchanged —
the fork body only reads initialSeed and subsystem — so the parent stream of
subsequent next() outputs is identical whether or not fork was called. -/
theorem fork_preserves_parent (s : SeededRandomQ) (name : String) (n : ℕ) :
    (forkJs s name).2 = s ∧
    nextStream (forkJs s name).2 n = nextStream s n :=
  ⟨rfl, rfl⟩

-- =============================================================================
-- Theorems: state serialization round-trip
-- =============================================================================

theorem mapGet_append_single_none {α : Type} (acc : List (String × α))
    (k0 k : String) (v0 : α) (h : mapGet acc k = none) (hne : k ≠ k0) :
    mapGet (acc ++ [(k0, v0)]) k = none := by
  induction acc with
  | nil =>
    have hbe : (k0 == k) = false := beq_eq_false_iff_ne.mpr (Ne.symm hne)
    simp [mapGet, List.find?, hbe]
  | cons p rest ih =>
    simp only [mapGet, List.cons_append, List.find?] at h ⊢
    rcases hpk : (p.1 == k) with _ | _
    · simp only [hpk] at h ⊢
      exact ih h
    · simp [hpk] at h

theorem mapSet_eq_append {α : Type} (acc : List (String × α)) (k : String)
    (v : α) (h : mapGet acc k = none) :
    mapSet acc k v = acc ++ [(k, v)] := by
  induction acc with
  | nil => simp [mapSet]
  | cons p rest ih =>
    simp only [mapGet, List.find?] at h
    rcases hpk : (p.1 == k) with _ | _
    · simp only [hpk] at h
      simp only [mapSet, hpk, Bool.false_eq_true, if_false, List.cons_append,
        List.cons.injEq, true_and]
      exact ih h
    · simp [hpk] at h

theorem foldl_mapSet_fresh {β α : Type} (g : β → String) (f : β → α) :
    ∀ (xs : List β) (acc : List (String × α)),
      (xs.map g).Nodup → (∀ b ∈ xs, mapGet acc (g b) = none) →
      xs.foldl (fun m b => mapSet m (g b) (f b)) acc =
        acc ++ xs.map (fun b => (g b, f b)) := by
  intro xs
  induction xs with
  | nil => intro acc _ _; simp
  | cons b rest ih =>
    intro acc hnd hacc
    simp only [List.map_cons, List.nodup_cons] at hnd
    have hb : mapGet acc (g b) = none := hacc b (List.mem_cons_self b rest)
    have hrest : ∀ x ∈ rest, mapGet (acc ++ [(g b, f b)]) (g x) = none := by
      intro x hx
      apply mapGet_append_single_none
      · exact hacc x (List.mem_cons_of_mem b hx)
      · intro hgx
        exact hnd.1 (hgx ▸ List.mem_map_of_mem g hx)
    calc (b :: rest).foldl (fun m x => mapSet m (g x) (f x)) acc
        = rest.foldl (fun m x => mapSet m (g x) (f x)) (mapSet acc (g b) (f b)) := rfl
      _ = rest.foldl (fun m x => mapSet m (g x) (f x)) (acc ++ [(g b, f b)]) := by
          rw [mapSet_eq_append acc (g b) (f b) hb]
      _ = (acc ++ [(g b, f b)]) ++ rest.map (fun x => (g x, f x)) := ih _ hnd.2 hrest
      _ = acc ++ (b :: rest).map (fun x => (g x, f x)) := by
          simp [List.append_assoc]

/-- C9: a serialize/deserialize round trip reproduces, entity by entity and
in order, the exact position, velocity and status under the original key,
carries the same hash string, and resets the world bounds to the fixed
default min (-1000, -100, -1000), max (1000, 1000, 1000).  The snapshot is
assumed well-formed: entities are keyed by their own id and keys are
distinct, which the runtime registry guarantees. -/
theorem serialize_roundtrip (s : StateSnapshotQ)
    (hid : ∀ p ∈ s.entities, (p.2).id = p.1)
    (hnd : (s.entities.map Prod.fst).Nodup) :
    (deserializeState (serializeState s)).entities.map
        (fun p => (p.1, p.2.transform.position, p.2.velocity, p.2.status)) =
      s.entities.map
        (fun p => (p.1, p.2.transform.position, p.2.velocity, p.2.status)) ∧
    (deserializeState (serializeState s)).hash = s.hash ∧
    (deserializeState (serializeState s)).worldState.bounds = defaultBoundsQ := by
  refine ⟨?_, rfl, rfl⟩
  have hids : ((serializeState s).entities.map (fun e => e.id)).Nodup := by
    have : (serializeState s).entities.map (fun e => e.id) =
        s.entities.map Prod.fst := by
      simp only [serializeState, List.map_map]
      exact List.map_congr_left (fun p hp => hid p hp)
    rw [this]
    exact hnd
  have hfold := foldl_mapSet_fresh (fun e : SerializedEntityQ => e.id)
    deserializeEntity (serializeState s).entities [] hids (by
      intro b _
      simp [mapGet])
  have hent : (deserializeState (serializeState s)).entities =
      (serializeState s).entities.map (fun e => (e.id, deserializeEntity e)) := by
    simp only [deserializeState]
    rw [hfold]
    simp
  rw [hent]
  simp only [serializeState, List.map_map]
  apply List.map_congr_left
  intro p hp
  simp only [Function.comp_apply, deserializeEntity]
  refine Prod.ext (hid p hp) (Prod.ext rfl (Prod.ext rfl rfl))

/-- Witness for C9 on a one-entity snapshot. -/
theorem serialize_roundtrip_witness :
    (∀ p ∈ [("e1", (⟨"e1", ⟨⟨1, 2, 3⟩, ⟨0, 0, 0, 1⟩, ⟨1, 1, 1⟩⟩, ⟨4, 5, 6⟩,
        vzero, vzero, "moving"⟩ : EntityStateQ))], (p.2).id = p.1) ∧
    ((([("e1", (⟨"e1", ⟨⟨1, 2, 3⟩, ⟨0, 0, 0, 1⟩, ⟨1, 1, 1⟩⟩, ⟨4, 5, 6⟩,
        vzero, vzero, "moving"⟩ : EntityStateQ))]).map Prod.fst).Nodup) ∧
    ((deserializeState (serializeState
        ⟨3, 0, 7, [("e1", ⟨"e1", ⟨⟨1, 2, 3⟩, ⟨0, 0, 0, 1⟩, ⟨1, 1, 1⟩⟩, ⟨4, 5, 6⟩,
          vzero, vzero, "moving"⟩)],
          ⟨0, ⟨0, -981/100, 0⟩, defaultBoundsQ, 1, 0⟩, "abc123"⟩)).entities.map
        (fun p => (p.1, p.2.transform.position, p.2.velocity, p.2.status)) =
      ([("e1", (⟨"e1", ⟨⟨1, 2, 3⟩, ⟨0, 0, 0, 1⟩, ⟨1, 1, 1⟩⟩, ⟨4, 5, 6⟩,
          vzero, vzero, "moving"⟩ : EntityStateQ))]).map
        (fun p => (p.1, p.2.transform.position, p.2.velocity, p.2.status)) ∧
      (deserializeState (serializeState
        ⟨3, 0, 7, [("e1", ⟨"e1", ⟨⟨1, 2, 3⟩, ⟨0, 0, 0, 1⟩, ⟨1, 1, 1⟩⟩, ⟨4, 5, 6⟩,
          vzero, vzero, "moving"⟩)],
          ⟨0, ⟨0, -981/100, 0⟩, defaultBoundsQ, 1, 0⟩, "abc123"⟩)).hash = "abc123" ∧
      (deserializeState (serializeState
        ⟨3, 0, 7, [("e1", ⟨"e1", ⟨⟨1, 2, 3⟩, ⟨0, 0, 0, 1⟩, ⟨1, 1, 1⟩⟩, ⟨4, 5, 6⟩,
          vzero, vzero, "moving"⟩)],
          ⟨0, ⟨0, -981/100, 0⟩, defaultBoundsQ, 1, 0⟩, "abc123"⟩)).worldState.bounds =
        defaultBoundsQ) := by
  refine ⟨?_, ?_, ?_⟩
  · intro p hp
    simp only [List.mem_singleton] at hp
    subst hp
    rfl
  · simp
  · exact serialize_roundtrip _ (by
      intro p hp
      simp only [List.mem_singleton] at hp
      subst hp
      rfl) (by simp)

-- =============================================================================
-- Theorems: broadphase helper lemmas
-- =============================================================================

theorem aabbIntersects_comm (a b : AABBQ) :
    aabbIntersects a b = aabbIntersects b a := by
  simp only [aabbIntersects, ge_iff_le]
  rw [Bool.eq_iff_iff]
  simp only [Bool.and_eq_true, decide_eq_true_eq]
  tauto

theorem mem_canonSet_iff (pairs : List CollisionPairQ) (x : String × String) :
    x ∈ canonSet pairs ↔ ∃ p ∈ pairs, cpo p.entityA p.entityB = x := by
  simp [canonSet, cpo, List.mem_toFinset, List.mem_map]

theorem cpo_comm (a b : String) (h : a ≠ b) : cpo a b = cpo b a := by
  rcases lt_or_gt_of_ne h with hlt | hgt
  · simp [cpo, hlt, not_lt_of_gt hlt]
  · simp [cpo, hgt, not_lt_of_gt hgt]

theorem cpo_eq_self_of_lt (a b : String) (h : a < b) : cpo a b = (a, b) := by
  simp [cpo, h]

theorem canonSet_append (l₁ l₂ : List CollisionPairQ) :
    canonSet (l₁ ++ l₂) = canonSet l₁ ∪ canonSet l₂ := by
  simp [canonSet, List.toFinset_append]

theorem collidesIn_symm (L : List (String × AABBQ)) (x y : String)
    (h : collidesIn L x y) : collidesIn L y x := by
  obtain ⟨hne, bx, byy, hx, hy, hint⟩ := h
  exact ⟨hne.symm, byy, bx, hy, hx, by rw [aabbIntersects_comm]; exact hint⟩

-- =============================================================================
-- Theorems: SimpleBroadphase characterization
-- =============================================================================

theorem cpo_eq_swap_of_gt (a b : String) (h : b < a) : cpo a b = (b, a) := by
  simp [cpo, not_lt_of_gt h]

theorem mem_canonSet_simple (u v : String) :
    ∀ (L : List (String × AABBQ)), (L.map Prod.fst).Nodup →
      ((u, v) ∈ canonSet (simpleQueryPairs L).pairs ↔
        u < v ∧ collidesIn L u v) := by
  intro L
  induction L with
  | nil =>
    intro _
    simp [simpleQueryPairs, simplePairsLoop, canonSet, collidesIn]
  | cons e rest ih =>
    intro hnd
    simp only [List.map_cons, List.nodup_cons] at hnd
    obtain ⟨hhead, hndrest⟩ := hnd
    have hloop : (simpleQueryPairs (e :: rest)).pairs =
        rest.filterMap (fun f =>
          if aabbIntersects e.2 f.2 then some ⟨e.1, f.1⟩ else none) ++
        (simpleQueryPairs rest).pairs := rfl
    rw [hloop, canonSet_append, Finset.mem_union]
    constructor
    · rintro (hin | hrec)
      · rw [mem_canonSet_iff] at hin
        obtain ⟨p, hp, hcpo⟩ := hin
        rw [List.mem_filterMap] at hp
        obtain ⟨f, hf, hif⟩ := hp
        by_cases hint : aabbIntersects e.2 f.2 = true
        · rw [if_pos hint] at hif
          injection hif with hif
          subst hif
          have hne : e.1 ≠ f.1 := by
            intro hEq
            exact hhead (hEq ▸ List.mem_map_of_mem Prod.fst hf)
          rcases lt_or_gt_of_ne hne with hlt | hgt
          · rw [cpo_eq_self_of_lt _ _ hlt, Prod.ext_iff] at hcpo
            obtain ⟨hu, hv⟩ := hcpo
            simp only [] at hu hv
            subst hu
            subst hv
            refine ⟨hlt, hne, e.2, f.2, ?_, List.mem_cons_of_mem e hf, hint⟩
            exact List.mem_cons_self e rest
          · rw [cpo_eq_swap_of_gt _ _ hgt, Prod.ext_iff] at hcpo
            obtain ⟨hu, hv⟩ := hcpo
            simp only [] at hu hv
            subst hu
            subst hv
            refine ⟨hgt, hne.symm, f.2, e.2, List.mem_cons_of_mem e hf, ?_, ?_⟩
            · exact List.mem_cons_self e rest
            · rw [aabbIntersects_comm]
              exact hint
        · rw [if_neg hint] at hif
          exact absurd hif (by simp)
      · have hGood := (ih hndrest).mp hrec
        refine ⟨hGood.1, hGood.2.1, ?_⟩
        obtain ⟨bx, byy, hx, hy, hint⟩ := hGood.2.2
        exact ⟨bx, byy, List.mem_cons_of_mem e hx, List.mem_cons_of_mem e hy, hint⟩
    · rintro ⟨huv, hne, bx, byy, hx, hy, hint⟩
      rcases List.mem_cons.mp hx with hxe | hxr
      · rcases List.mem_cons.mp hy with hye | hyr
        · exfalso
          apply hne
          have h1 : u = e.1 := congrArg Prod.fst hxe
          have h2 : v = e.1 := congrArg Prod.fst hye
          rw [h1, h2]
        · left
          rw [mem_canonSet_iff]
          refine ⟨⟨e.1, v⟩, ?_, ?_⟩
          · rw [List.mem_filterMap]
            refine ⟨(v, byy), hyr, ?_⟩
            have he2 : e.2 = bx := (congrArg Prod.snd hxe).symm
            rw [if_pos (by rw [he2]; exact hint)]
          · have h1 : e.1 = u := (congrArg Prod.fst hxe).symm
            rw [h1]
            exact cpo_eq_self_of_lt u v huv
      · rcases List.mem_cons.mp hy with hye | hyr
        · left
          rw [mem_canonSet_iff]
          refine ⟨⟨e.1, u⟩, ?_, ?_⟩
          · rw [List.mem_filterMap]
            refine ⟨(u, bx), hxr, ?_⟩
            have he2 : e.2 = byy := (congrArg Prod.snd hye).symm
            rw [if_pos (by rw [he2, aabbIntersects_comm]; exact hint)]
          · have h1 : e.1 = v := (congrArg Prod.fst hye).symm
            rw [h1]
            exact cpo_eq_swap_of_gt v u huv
        · right
          exact (ih hndrest).mpr ⟨huv, hne, bx, byy, hxr, hyr, hint⟩

-- =============================================================================
-- Theorems: SweepAndPrune characterization
-- =============================================================================

theorem aabbIntersects_iff (a b : AABBQ) :
    aabbIntersects a b = true ↔
      a.lo.x ≤ b.hi.x ∧ b.lo.x ≤ a.hi.x ∧ a.lo.y ≤ b.hi.y ∧ b.lo.y ≤ a.hi.y ∧
      a.lo.z ≤ b.hi.z ∧ b.lo.z ≤ a.hi.z := by
  simp [aabbIntersects, ge_iff_le, and_assoc]

theorem mem_takeWhile_of_sorted (c : ℚ) :
    ∀ (l : List SAPEntryQ), l.Pairwise (fun x y => x.minX ≤ y.minX) →
      ∀ b ∈ l, b.minX ≤ c →
        b ∈ l.takeWhile (fun x => decide (x.minX ≤ c)) := by
  intro l
  induction l with
  | nil => intro _ b hb; simp at hb
  | cons a rest ih =>
    intro hp b hb hbc
    rw [List.pairwise_cons] at hp
    rcases List.mem_cons.mp hb with hba | hbr
    · subst hba
      rw [List.takeWhile_cons, if_pos (by simpa using hbc)]
      exact List.mem_cons_self b _
    · have hab : a.minX ≤ b.minX := hp.1 b hbr
      rw [List.takeWhile_cons, if_pos (by simp; linarith)]
      exact List.mem_cons_of_mem a (ih hp.2 b hbr hbc)

theorem cpo_canonPair (a b : String) (h : a ≠ b) :
    cpo (canonPair a b).entityA (canonPair a b).entityB = cpo a b := by
  rcases lt_or_gt_of_ne h with hlt | hgt
  · rw [canonPair, if_pos hlt]
  · rw [canonPair, if_neg (not_lt_of_gt hgt)]
    show cpo b a = cpo a b
    exact cpo_comm b a h.symm

theorem mem_canonSet_sapLoop (u v : String) :
    ∀ (l : List SAPEntryQ),
      l.Pairwise (fun x y => x.minX ≤ y.minX) →
      (l.map SAPEntryQ.id).Nodup →
      (∀ e ∈ l, e.minX = e.bounds.lo.x ∧ e.maxX = e.bounds.hi.x) →
      ((u, v) ∈ canonSet (sapPairsLoop l).1 ↔
        u < v ∧ ∃ ea eb, ea ∈ l ∧ eb ∈ l ∧ ea.id = u ∧ eb.id = v ∧
          aabbIntersects ea.bounds eb.bounds = true) := by
  intro l
  induction l with
  | nil =>
    intro _ _ _
    simp [sapPairsLoop, canonSet]
  | cons a rest ih =>
    intro hp hnd hfld
    rw [List.pairwise_cons] at hp
    simp only [List.map_cons, List.nodup_cons] at hnd
    obtain ⟨hhead, hndrest⟩ := hnd
    have hfldrest : ∀ e ∈ rest, e.minX = e.bounds.lo.x ∧ e.maxX = e.bounds.hi.x :=
      fun e he => hfld e (List.mem_cons_of_mem a he)
    have hloop : (sapPairsLoop (a :: rest)).1 =
        (rest.takeWhile (fun b => b.minX ≤ a.maxX)).filterMap (fun b =>
          if aabbIntersects a.bounds b.bounds then some (canonPair a.id b.id)
          else none) ++ (sapPairsLoop rest).1 := rfl
    rw [hloop, canonSet_append, Finset.mem_union]
    constructor
    · rintro (hin | hrec)
      · rw [mem_canonSet_iff] at hin
        obtain ⟨p, hp2, hcpo⟩ := hin
        rw [List.mem_filterMap] at hp2
        obtain ⟨b, hbmem, hif⟩ := hp2
        have hbrest : b ∈ rest :=
          (List.takeWhile_sublist (fun b => decide (b.minX ≤ a.maxX))).subset hbmem
        by_cases hint : aabbIntersects a.bounds b.bounds = true
        · rw [if_pos hint] at hif
          injection hif with hif
          subst hif
          have hne : a.id ≠ b.id := by
            intro hEq
            exact hhead (hEq ▸ List.mem_map_of_mem SAPEntryQ.id hbrest)
          rw [cpo_canonPair _ _ hne] at hcpo
          rcases lt_or_gt_of_ne hne with hlt | hgt
          · rw [cpo_eq_self_of_lt _ _ hlt, Prod.ext_iff] at hcpo
            obtain ⟨hu, hv⟩ := hcpo
            simp only [] at hu hv
            subst hu; subst hv
            exact ⟨hlt, a, b, List.mem_cons_self a rest,
              List.mem_cons_of_mem a hbrest, rfl, rfl, hint⟩
          · rw [cpo_eq_swap_of_gt _ _ hgt, Prod.ext_iff] at hcpo
            obtain ⟨hu, hv⟩ := hcpo
            simp only [] at hu hv
            subst hu; subst hv
            refine ⟨hgt, b, a, List.mem_cons_of_mem a hbrest,
              List.mem_cons_self a rest, rfl, rfl, ?_⟩
            rw [aabbIntersects_comm]
            exact hint
        · rw [if_neg hint] at hif
          exact absurd hif (by simp)
      · obtain ⟨huv, ea, eb, hea, heb, hidu, hidv, hint⟩ :=
          ih hp.2 hndrest hfldrest |>.mp hrec
        exact ⟨huv, ea, eb, List.mem_cons_of_mem a hea,
          List.mem_cons_of_mem a heb, hidu, hidv, hint⟩
    · rintro ⟨huv, ea, eb, hea, heb, hidu, hidv, hint⟩
      have hne : ea.id ≠ eb.id := by
        rw [hidu, hidv]; exact ne_of_lt huv
      rcases List.mem_cons.mp hea with heaa | hear
      · subst heaa
        rcases List.mem_cons.mp heb with heba | hebr
        · exact absurd (heba ▸ rfl : ea.id = eb.id) hne
        · left
          rw [mem_canonSet_iff]
          have hbx : eb.minX ≤ ea.maxX := by
            obtain ⟨hbl, _⟩ := hfldrest eb hebr
            have hax : ea.maxX = ea.bounds.hi.x :=
              (hfld ea (List.mem_cons_self ea rest)).2
            have hcomp := (aabbIntersects_iff ea.bounds eb.bounds).mp hint
            rw [hbl, hax]
            linarith [hcomp.2.1]
          refine ⟨canonPair ea.id eb.id, ?_, ?_⟩
          · rw [List.mem_filterMap]
            exact ⟨eb, mem_takeWhile_of_sorted ea.maxX rest hp.2 eb hebr hbx,
              by rw [if_pos hint]⟩
          · rw [cpo_canonPair _ _ hne, hidu, hidv]
            exact cpo_eq_self_of_lt u v huv
      · rcases List.mem_cons.mp heb with heba | hebr
        · subst heba
          left
          rw [mem_canonSet_iff]
          have hbx : ea.minX ≤ eb.maxX := by
            obtain ⟨hbl, _⟩ := hfldrest ea hear
            have hax : eb.maxX = eb.bounds.hi.x :=
              (hfld eb (List.mem_cons_self eb rest)).2
            have hcomp := (aabbIntersects_iff ea.bounds eb.bounds).mp hint
            rw [hbl, hax]
            linarith [hcomp.1]
          refine ⟨canonPair eb.id ea.id, ?_, ?_⟩
          · rw [List.mem_filterMap]
            refine ⟨ea, mem_takeWhile_of_sorted eb.maxX rest hp.2 ea hear hbx, ?_⟩
            rw [if_pos (by rw [aabbIntersects_comm]; exact hint)]
          · rw [cpo_canonPair _ _ hne.symm, hidu, hidv]
            exact cpo_eq_swap_of_gt v u huv
        · right
          exact (ih hp.2 hndrest hfldrest).mpr
            ⟨huv, ea, eb, hear, hebr, hidu, hidv, hint⟩

theorem sapFromList_entries :
    ∀ (L : List (String × AABBQ)) (st : SAPStateQ),
      (L.foldl (fun st p => sapInsert st p.1 p.2) st).entries =
        st.entries ++ L.map (fun p => (⟨p.1, p.2, p.2.lo.x, p.2.hi.x⟩ : SAPEntryQ)) := by
  intro L
  induction L with
  | nil => intro st; simp
  | cons p rest ih =>
    intro st
    simp only [List.foldl_cons, List.map_cons]
    rw [ih]
    simp [sapInsert, List.append_assoc]

theorem mem_canonSet_sap (L : List (String × AABBQ))
    (hnd : (L.map Prod.fst).Nodup) (u v : String) :
    ((u, v) ∈ canonSet (sapQueryPairs (sapFromList L)).pairs ↔
      u < v ∧ collidesIn L u v) := by
  have hentries : (sapFromList L).entries =
      L.map (fun p => (⟨p.1, p.2, p.2.lo.x, p.2.hi.x⟩ : SAPEntryQ)) := by
    rw [sapFromList, sapFromList_entries]
    rfl
  have hpairs : (sapQueryPairs (sapFromList L)).pairs =
      (sapPairsLoop ((sapFromList L).entries.mergeSort
        (fun a b => a.minX ≤ b.minX))).1 := rfl
  have hperm : ((sapFromList L).entries.mergeSort (fun a b => a.minX ≤ b.minX)).Perm
      (sapFromList L).entries := List.mergeSort_perm _ _
  have hpw : ((sapFromList L).entries.mergeSort (fun a b => a.minX ≤ b.minX)).Pairwise
      (fun x y => x.minX ≤ y.minX) := by
    have h := @List.sorted_mergeSort SAPEntryQ (fun a b => a.minX ≤ b.minX)
      (by
        intro a b c hab hbc
        simp only [decide_eq_true_eq] at hab hbc ⊢
        linarith)
      (by
        intro a b
        simp only [Bool.or_eq_true, decide_eq_true_eq]
        exact le_total a.minX b.minX)
      (sapFromList L).entries
    exact h.imp (fun hab => of_decide_eq_true hab)
  have hids0 : ((sapFromList L).entries.map SAPEntryQ.id).Nodup := by
    rw [hentries, List.map_map]
    exact hnd
  have hids : (((sapFromList L).entries.mergeSort
      (fun a b => a.minX ≤ b.minX)).map SAPEntryQ.id).Nodup :=
    (hperm.map SAPEntryQ.id).nodup_iff.mpr hids0
  have hfields : ∀ e ∈ (sapFromList L).entries.mergeSort
      (fun a b => a.minX ≤ b.minX),
      e.minX = e.bounds.lo.x ∧ e.maxX = e.bounds.hi.x := by
    intro e he
    have he2 : e ∈ (sapFromList L).entries := hperm.mem_iff.mp he
    rw [hentries, List.mem_map] at he2
    obtain ⟨p, _, hpe⟩ := he2
    rw [← hpe]
    exact ⟨rfl, rfl⟩
  rw [hpairs, mem_canonSet_sapLoop u v _ hpw hids hfields]
  constructor
  · rintro ⟨huv, ea, eb, hea, heb, hidu, hidv, hint⟩
    refine ⟨huv, ne_of_lt huv, ea.bounds, eb.bounds, ?_, ?_, hint⟩
    · have := hperm.mem_iff.mp hea
      rw [hentries, List.mem_map] at this
      obtain ⟨p, hpL, hpe⟩ := this
      have h1 : p.1 = u := by rw [← hidu, ← hpe]
      have h2 : p.2 = ea.bounds := by rw [← hpe]
      rw [← h1, ← h2]
      exact hpL
    · have := hperm.mem_iff.mp heb
      rw [hentries, List.mem_map] at this
      obtain ⟨p, hpL, hpe⟩ := this
      have h1 : p.1 = v := by rw [← hidv, ← hpe]
      have h2 : p.2 = eb.bounds := by rw [← hpe]
      rw [← h1, ← h2]
      exact hpL
  · rintro ⟨huv, _, bx, byy, hx, hy, hint⟩
    refine ⟨huv, ⟨u, bx, bx.lo.x, bx.hi.x⟩, ⟨v, byy, byy.lo.x, byy.hi.x⟩,
      ?_, ?_, rfl, rfl, hint⟩
    · apply hperm.mem_iff.mpr
      rw [hentries, List.mem_map]
      exact ⟨(u, bx), hx, rfl⟩
    · apply hperm.mem_iff.mpr
      rw [hentries, List.mem_map]
      exact ⟨(v, byy), hy, rfl⟩

-- =============================================================================
-- Theorems: map and string-key machinery for the spatial hash
-- =============================================================================

theorem mapGet_nil {α : Type} (k : String) : mapGet ([] : List (String × α)) k = none := rfl

theorem mapGet_cons {α : Type} (p : String × α) (rest : List (String × α)) (k : String) :
    mapGet (p :: rest) k = if p.1 == k then some p.2 else mapGet rest k := by
  rw [mapGet, List.find?]
  rcases h : (p.1 == k) with _ | _ <;> simp [h, mapGet]

theorem mapGet_mapSet {α : Type} :
    ∀ (m : List (String × α)) (k0 k : String) (v : α),
      mapGet (mapSet m k0 v) k = if k = k0 then some v else mapGet m k := by
  intro m
  induction m with
  | nil =>
    intro k0 k v
    simp only [mapSet, mapGet_cons, mapGet_nil, beq_iff_eq]
    by_cases h : k = k0
    · simp [h]
    · simp [h, Ne.symm h]
  | cons p rest ih =>
    intro k0 k v
    simp only [mapSet]
    by_cases hp : p.1 = k0
    · simp only [beq_iff_eq, hp, if_true]
      simp only [mapGet_cons, beq_iff_eq]
      by_cases hk : k = k0
      · simp [hk]
      · simp [hk, Ne.symm hk, hp]
    · simp only [beq_iff_eq, hp, if_false]
      simp only [mapGet_cons, beq_iff_eq, ih]
      by_cases hpk2 : p.1 = k
      · have hkk : ¬ k = k0 := fun hc => hp (hpk2.trans hc)
        simp [hpk2, hkk]
      · by_cases hk : k = k0
        · simp only [hpk2, hk]
          simp [hp]
        · simp [hpk2, hk]

theorem mem_mapSet {α : Type} :
    ∀ (m : List (String × α)) (k0 : String) (v : α) (e : String × α),
      e ∈ mapSet m k0 v → e ∈ m ∨ e = (k0, v) := by
  intro m
  induction m with
  | nil =>
    intro k0 v e he
    simp only [mapSet] at he
    right
    simpa using he
  | cons p rest ih =>
    intro k0 v e he
    simp only [mapSet] at he
    by_cases hp : p.1 = k0
    · simp only [beq_iff_eq, hp, if_true] at he
      rcases List.mem_cons.mp he with hep | her
      · right; exact hep
      · left; exact List.mem_cons_of_mem p her
    · simp only [beq_iff_eq, hp, if_false] at he
      rcases List.mem_cons.mp he with hep | her
      · left; exact hep ▸ List.mem_cons_self p rest
      · rcases ih k0 v e her with h1 | h2
        · left; exact List.mem_cons_of_mem p h1
        · right; exact h2

theorem mapGet_append_single {α : Type} :
    ∀ (m : List (String × α)) (k0 k : String) (v0 : α),
      mapGet (m ++ [(k0, v0)]) k =
        match mapGet m k with
        | some s => some s
        | none => if k = k0 then some v0 else none := by
  intro m
  induction m with
  | nil =>
    intro k0 k v0
    simp only [List.nil_append, mapGet_cons, mapGet_nil, beq_iff_eq]
    by_cases h : k = k0
    · simp [h]
    · simp [h, Ne.symm h]
  | cons p rest ih =>
    intro k0 k v0
    rw [List.cons_append, mapGet_cons, mapGet_cons, ih]
    by_cases h : p.1 = k
    · simp [h]
    · have hb : (p.1 == k) = false := beq_eq_false_iff_ne.mpr h
      rw [hb]
      simp

theorem mapGet_mem {α : Type} {m : List (String × α)} {k : String} {v : α}
    (h : mapGet m k = some v) : (k, v) ∈ m := by
  rw [mapGet] at h
  rcases hf : m.find? (fun p => p.1 == k) with _ | p
  · rw [hf] at h; simp at h
  · rw [hf] at h
    simp only [Option.map] at h
    have hp := List.mem_of_find?_eq_some hf
    have hpk : p.1 = k := by simpa using List.find?_some hf
    injection h with h
    have : (k, v) = p := by
      rw [← hpk, ← h]
    rw [this]
    exact hp

theorem mapGet_of_mem_nodup {α : Type} :
    ∀ {m : List (String × α)} {k : String} {v : α},
      (m.map Prod.fst).Nodup → (k, v) ∈ m → mapGet m k = some v := by
  intro m
  induction m with
  | nil => intro k v _ h; simp at h
  | cons p rest ih =>
    intro k v hnd hmem
    simp only [List.map_cons, List.nodup_cons] at hnd
    rw [mapGet_cons]
    rcases List.mem_cons.mp hmem with hep | her
    · rw [← hep]
      simp
    · rw [if_neg (by
        simp only [beq_iff_eq]
        intro hc
        exact hnd.1 (hc ▸ List.mem_map_of_mem Prod.fst her))]
      exact ih hnd.2 her

theorem pairKey_comm (a b : String) (h : a ≠ b) : pairKey a b = pairKey b a := by
  rcases lt_or_gt_of_ne h with hlt | hgt
  · rw [pairKey, pairKey, if_pos hlt, if_neg (not_lt_of_gt hlt)]
  · rw [pairKey, pairKey, if_neg (not_lt_of_gt hgt), if_pos hgt]

theorem canonPair_comm (a b : String) (h : a ≠ b) : canonPair a b = canonPair b a := by
  rcases lt_or_gt_of_ne h with hlt | hgt
  · rw [canonPair, canonPair, if_pos hlt, if_neg (not_lt_of_gt hlt)]
  · rw [canonPair, canonPair, if_neg (not_lt_of_gt hgt), if_pos hgt]

theorem pairKey_eq_cpo (a b : String) :
    pairKey a b = (cpo a b).1 ++ ":" ++ (cpo a b).2 := by
  rw [pairKey, cpo]
  by_cases h : a < b <;> simp [h]

theorem canonPair_eq_cpo (a b : String) :
    canonPair a b = ⟨(cpo a b).1, (cpo a b).2⟩ := by
  rw [canonPair, cpo]
  by_cases h : a < b <;> simp [h]

theorem colonFree_iff (s : String) :
    colonFree s = true ↔ (':' : Char) ∉ s.data := by
  rw [colonFree, List.all_eq_true]
  constructor
  · intro h hc
    have := h _ hc
    simp at this
  · intro h c hc
    simp only [bne_iff_ne, ne_eq]
    intro hcc
    exact h (hcc ▸ hc)

theorem charList_colon_inj :
    ∀ (l₁ : List Char) (l₂ r₁ r₂ : List Char), (':' : Char) ∉ l₁ → (':' : Char) ∉ l₂ →
      l₁ ++ ':' :: r₁ = l₂ ++ ':' :: r₂ → l₁ = l₂ ∧ r₁ = r₂ := by
  intro l₁
  induction l₁ with
  | nil =>
    intro l₂ r₁ r₂ _ h₂ h
    rcases l₂ with _ | ⟨c, t⟩
    · simp at h
      exact ⟨rfl, h⟩
    · simp only [List.nil_append, List.cons_append, List.cons.injEq] at h
      exact absurd (h.1 ▸ List.mem_cons_self c t) h₂
  | cons c t ih =>
    intro l₂ r₁ r₂ h₁ h₂ h
    rcases l₂ with _ | ⟨c2, t2⟩
    · simp only [List.cons_append, List.nil_append, List.cons.injEq] at h
      exact absurd (h.1.symm ▸ List.mem_cons_self c t) h₁
    · simp only [List.cons_append, List.cons.injEq] at h
      have hrec := ih t2 r₁ r₂ (fun hc => h₁ (List.mem_cons_of_mem c hc))
        (fun hc => h₂ (List.mem_cons_of_mem c2 hc)) h.2
      exact ⟨by rw [h.1, hrec.1], hrec.2⟩

theorem string_colon_inj (a₁ b₁ a₂ b₂ : String)
    (h₁ : colonFree a₁ = true) (h₂ : colonFree a₂ = true)
    (h : a₁ ++ ":" ++ b₁ = a₂ ++ ":" ++ b₂) : a₁ = a₂ ∧ b₁ = b₂ := by
  have hd : a₁.data ++ ':' :: b₁.data = a₂.data ++ ':' :: b₂.data := by
    have := congrArg String.data h
    simpa [String.data_append] using this
  have := charList_colon_inj a₁.data a₂.data b₁.data b₂.data
    ((colonFree_iff a₁).mp h₁) ((colonFree_iff a₂).mp h₂) hd
  refine ⟨?_, ?_⟩
  · cases a₁; cases a₂
    exact congrArg String.mk this.1
  · cases b₁; cases b₂
    exact congrArg String.mk this.2

-- =============================================================================
-- Theorems: spatial hash cell-state invariants
-- =============================================================================

theorem mem_setAdd (s : List String) (id x : String) :
    x ∈ setAdd s id ↔ x ∈ s ∨ x = id := by
  rw [setAdd]
  by_cases h : s.contains id
  · rw [if_pos h]
    constructor
    · exact Or.inl
    · rintro (hx | hx)
      · exact hx
      · subst hx
        simpa using h
  · rw [if_neg h]
    simp [List.mem_append]

theorem setAdd_nodup (s : List String) (id : String) (h : s.Nodup) :
    (setAdd s id).Nodup := by
  rw [setAdd]
  by_cases hc : s.contains id
  · rwa [if_pos hc]
  · rw [if_neg hc]
    rw [List.nodup_append]
    refine ⟨h, List.nodup_singleton id, ?_⟩
    intro x hx hxid
    rcases List.mem_singleton.mp hxid with rfl
    exact hc (by simpa using hx)

theorem cellsInsert_some (cells : List (String × List String)) (key id : String)
    (s : List String) (h : mapGet cells key = some s) :
    cellsInsert cells key id = mapSet cells key (setAdd s id) := by
  rw [cellsInsert, h]

theorem cellsInsert_none (cells : List (String × List String)) (key id : String)
    (h : mapGet cells key = none) :
    cellsInsert cells key id = cells ++ [(key, [id])] := by
  rw [cellsInsert, h]

theorem cellsInsert_spec (cells : List (String × List String)) (k0 id k x : String) :
    (∃ s, mapGet (cellsInsert cells k0 id) k = some s ∧ x ∈ s) ↔
      ((∃ s, mapGet cells k = some s ∧ x ∈ s) ∨ (k = k0 ∧ x = id)) := by
  by_cases hk : k = k0
  · subst hk
    rcases hg : mapGet cells k with _ | s0
    · rw [cellsInsert_none cells k id hg, mapGet_append_single, hg]
      simp
    · rw [cellsInsert_some cells k id s0 hg, mapGet_mapSet]
      simp [hg, mem_setAdd]
  · rcases hg : mapGet cells k0 with _ | s0
    · rw [cellsInsert_none cells k0 id hg, mapGet_append_single]
      rcases hg2 : mapGet cells k with _ | s2 <;> simp [hk]
    · rw [cellsInsert_some cells k0 id s0 hg, mapGet_mapSet, if_neg hk]
      simp [hk]

theorem foldl_cellsInsert_spec (id : String) :
    ∀ (K : List String) (cells : List (String × List String)) (k x : String),
      (∃ s, mapGet (K.foldl (fun cs k => cellsInsert cs k id) cells) k = some s ∧ x ∈ s) ↔
        ((∃ s, mapGet cells k = some s ∧ x ∈ s) ∨ (k ∈ K ∧ x = id)) := by
  intro K
  induction K with
  | nil => intro cells k x; simp
  | cons k1 rest ih =>
    intro cells k x
    rw [List.foldl_cons, ih, cellsInsert_spec]
    constructor
    · rintro ((h | ⟨hk, hx⟩) | ⟨hk, hx⟩)
      · exact Or.inl h
      · exact Or.inr ⟨hk ▸ List.mem_cons_self k1 rest, hx⟩
      · exact Or.inr ⟨List.mem_cons_of_mem k1 hk, hx⟩
    · rintro (h | ⟨hk, hx⟩)
      · exact Or.inl (Or.inl h)
      · rcases List.mem_cons.mp hk with h1 | h2
        · exact Or.inl (Or.inr ⟨h1, hx⟩)
        · exact Or.inr ⟨h2, hx⟩

theorem shFold_cellSize :
    ∀ (L : List (String × AABBQ)) (st : SpatialHashStateQ),
      (L.foldl (fun st p => shInsert st p.1 p.2) st).cellSize = st.cellSize := by
  intro L
  induction L with
  | nil => intro st; rfl
  | cons p rest ih => intro st; rw [List.foldl_cons, ih]; rfl

theorem shFold_cells_spec (c : ℚ) :
    ∀ (L : List (String × AABBQ)) (st : SpatialHashStateQ), st.cellSize = c →
      ∀ (k x : String),
        (∃ s, mapGet (L.foldl (fun st p => shInsert st p.1 p.2) st).cells k = some s ∧ x ∈ s) ↔
          ((∃ s, mapGet st.cells k = some s ∧ x ∈ s) ∨
            (∃ b, (x, b) ∈ L ∧ k ∈ getCellsForBounds c b)) := by
  intro L
  induction L with
  | nil =>
    intro st _ k x
    simp
  | cons p rest ih =>
    intro st hc k x
    rw [List.foldl_cons, ih (shInsert st p.1 p.2) (by rw [← hc]; rfl) k x]
    have hins : (shInsert st p.1 p.2).cells =
        (getCellsForBounds st.cellSize p.2).foldl (fun cs k => cellsInsert cs k p.1) st.cells := rfl
    rw [hins, foldl_cellsInsert_spec, hc]
    constructor
    · rintro ((h | ⟨hk, hx⟩) | ⟨b, hb, hk⟩)
      · exact Or.inl h
      · exact Or.inr ⟨p.2, hx ▸ List.mem_cons_self p rest, hk⟩
      · exact Or.inr ⟨b, List.mem_cons_of_mem p hb, hk⟩
    · rintro (h | ⟨b, hb, hk⟩)
      · exact Or.inl (Or.inl h)
      · rcases List.mem_cons.mp hb with h1 | h2
        · refine Or.inl (Or.inr ⟨?_, ?_⟩)
          · have : b = p.2 := congrArg Prod.snd h1
            rwa [← this]
          · exact congrArg Prod.fst h1
        · exact Or.inr ⟨b, h2, hk⟩

theorem cells_nodup_mapSet (cells : List (String × List String)) (k0 : String)
    (v : List String) (hv : v.Nodup) (h : ∀ e ∈ cells, e.2.Nodup) :
    ∀ e ∈ mapSet cells k0 v, e.2.Nodup := by
  intro e he
  rcases mem_mapSet cells k0 v e he with h1 | h2
  · exact h e h1
  · rw [h2]
    exact hv

theorem cellsInsert_nodup (cells : List (String × List String)) (k0 id : String)
    (h : ∀ e ∈ cells, e.2.Nodup) :
    ∀ e ∈ cellsInsert cells k0 id, e.2.Nodup := by
  rw [cellsInsert]
  rcases hg : mapGet cells k0 with _ | s0
  · intro e he
    rcases List.mem_append.mp he with h1 | h2
    · exact h e h1
    · rcases List.mem_singleton.mp h2 with rfl
      exact List.nodup_singleton id
  · exact cells_nodup_mapSet cells k0 (setAdd s0 id)
      (setAdd_nodup s0 id (h _ (mapGet_mem hg))) h

theorem foldl_cellsInsert_nodup (id : String) :
    ∀ (K : List String) (cells : List (String × List String)),
      (∀ e ∈ cells, e.2.Nodup) →
      ∀ e ∈ K.foldl (fun cs k => cellsInsert cs k id) cells, e.2.Nodup := by
  intro K
  induction K with
  | nil => intro cells h; exact h
  | cons k1 rest ih =>
    intro cells h
    rw [List.foldl_cons]
    exact ih _ (cellsInsert_nodup cells k1 id h)

theorem shFold_cells_nodup :
    ∀ (L : List (String × AABBQ)) (st : SpatialHashStateQ),
      (∀ e ∈ st.cells, e.2.Nodup) →
      ∀ e ∈ (L.foldl (fun st p => shInsert st p.1 p.2) st).cells, e.2.Nodup := by
  intro L
  induction L with
  | nil => intro st h; exact h
  | cons p rest ih =>
    intro st h
    rw [List.foldl_cons]
    exact ih _ (foldl_cellsInsert_nodup p.1 _ st.cells h)

theorem shFold_entityBounds :
    ∀ (L : List (String × AABBQ)) (st : SpatialHashStateQ),
      (L.foldl (fun st p => shInsert st p.1 p.2) st).entityBounds =
        L.foldl (fun m p => mapSet m p.1 p.2) st.entityBounds := by
  intro L
  induction L with
  | nil => intro st; rfl
  | cons p rest ih =>
    intro st
    rw [List.foldl_cons, List.foldl_cons, ih]
    rfl

theorem simpleFromList_eq_self (L : List (String × AABBQ))
    (hnd : (L.map Prod.fst).Nodup) : simpleFromList L = L := by
  rw [simpleFromList]
  have h := foldl_mapSet_fresh Prod.fst Prod.snd L [] hnd (by
    intro b _
    rfl)
  have h2 : L.foldl (fun m p => mapSet m p.1 p.2) [] =
      L.foldl (fun m b => mapSet m b.1 b.2) [] := rfl
  rw [h2]
  rw [h]
  simp

theorem shFromList_entityBounds (c : ℚ) (L : List (String × AABBQ))
    (hnd : (L.map Prod.fst).Nodup) :
    (shFromList c L).entityBounds = L := by
  rw [shFromList, shFold_entityBounds]
  exact simpleFromList_eq_self L hnd

-- =============================================================================
-- Theorems: overlapping AABBs share a spatial hash cell
-- =============================================================================

theorem mem_intRange (lo hi i : ℤ) (h1 : lo ≤ i) (h2 : i ≤ hi) :
    i ∈ intRange lo hi := by
  have hmem : (i - lo).toNat ∈ List.range (hi + 1 - lo).toNat := by
    rw [List.mem_range]
    omega
  have hin := List.mem_map_of_mem (fun j : ℕ => lo + (j : ℤ)) hmem
  simp only [] at hin
  have heq : lo + ((i - lo).toNat : ℤ) = i := by omega
  rw [heq] at hin
  rw [intRange]
  exact hin

theorem mem_getCellsForBounds (c : ℚ) (b : AABBQ) (x y z : ℤ)
    (hx1 : Rat.floor (b.lo.x / c) ≤ x) (hx2 : x ≤ Rat.floor (b.hi.x / c))
    (hy1 : Rat.floor (b.lo.y / c) ≤ y) (hy2 : y ≤ Rat.floor (b.hi.y / c))
    (hz1 : Rat.floor (b.lo.z / c) ≤ z) (hz2 : z ≤ Rat.floor (b.hi.z / c)) :
    cellKeyStr x y z ∈ getCellsForBounds c b := by
  rw [getCellsForBounds]
  rw [List.mem_flatMap]
  refine ⟨x, mem_intRange _ _ _ hx1 hx2, ?_⟩
  rw [List.mem_flatMap]
  refine ⟨y, mem_intRange _ _ _ hy1 hy2, ?_⟩
  rw [List.mem_map]
  exact ⟨z, mem_intRange _ _ _ hz1 hz2, rfl⟩

theorem floor_div_mono (c : ℚ) (hc : 0 < c) (a b : ℚ) (h : a ≤ b) :
    Rat.floor (a / c) ≤ Rat.floor (b / c) := by
  rw [ratFloor_eq_intFloor, ratFloor_eq_intFloor]
  apply Int.floor_le_floor
  have hinv : (0:ℚ) ≤ c⁻¹ := le_of_lt (inv_pos.mpr hc)
  have := mul_le_mul_of_nonneg_right h hinv
  simpa [div_eq_mul_inv] using this

theorem intersect_share_cell (c : ℚ) (hc : 0 < c) (b1 b2 : AABBQ)
    (h1 : aabbWF b1 = true) (h2 : aabbWF b2 = true)
    (hint : aabbIntersects b1 b2 = true) :
    ∃ k, k ∈ getCellsForBounds c b1 ∧ k ∈ getCellsForBounds c b2 := by
  rw [aabbIntersects_iff] at hint
  obtain ⟨hx1, hx2, hy1, hy2, hz1, hz2⟩ := hint
  have hw1 : b1.lo.x ≤ b1.hi.x ∧ b1.lo.y ≤ b1.hi.y ∧ b1.lo.z ≤ b1.hi.z := by
    simpa [aabbWF, and_assoc] using h1
  have hw2 : b2.lo.x ≤ b2.hi.x ∧ b2.lo.y ≤ b2.hi.y ∧ b2.lo.z ≤ b2.hi.z := by
    simpa [aabbWF, and_assoc] using h2
  refine ⟨cellKeyStr (Rat.floor (max b1.lo.x b2.lo.x / c))
    (Rat.floor (max b1.lo.y b2.lo.y / c)) (Rat.floor (max b1.lo.z b2.lo.z / c)),
    ?_, ?_⟩
  · refine mem_getCellsForBounds c b1 _ _ _ ?_ ?_ ?_ ?_ ?_ ?_
    · exact floor_div_mono c hc _ _ (le_max_left _ _)
    · exact floor_div_mono c hc _ _ (max_le hw1.1 hx2)
    · exact floor_div_mono c hc _ _ (le_max_left _ _)
    · exact floor_div_mono c hc _ _ (max_le hw1.2.1 hy2)
    · exact floor_div_mono c hc _ _ (le_max_left _ _)
    · exact floor_div_mono c hc _ _ (max_le hw1.2.2 hz2)
  · refine mem_getCellsForBounds c b2 _ _ _ ?_ ?_ ?_ ?_ ?_ ?_
    · exact floor_div_mono c hc _ _ (le_max_right _ _)
    · exact floor_div_mono c hc _ _ (max_le hx1 hw2.1)
    · exact floor_div_mono c hc _ _ (le_max_right _ _)
    · exact floor_div_mono c hc _ _ (max_le hy1 hw2.2.1)
    · exact floor_div_mono c hc _ _ (le_max_right _ _)
    · exact floor_div_mono c hc _ _ (max_le hz1 hw2.2.2)

-- =============================================================================
-- Theorems: spatial hash pair accumulator
-- =============================================================================

theorem shPairStep_has (B : List (String × AABBQ)) (idA idB : String)
    (ac : List (String × CollisionPairQ) × ℕ)
    (hhas : (mapGet ac.1 (pairKey idA idB)).isSome = true) :
    shPairStep B idA ac idB = ac := by
  rw [shPairStep, if_pos hhas]

theorem shPairStep_noA (B : List (String × AABBQ)) (idA idB : String)
    (ac : List (String × CollisionPairQ) × ℕ)
    (hhas : ¬ (mapGet ac.1 (pairKey idA idB)).isSome = true)
    (hA : mapGet B idA = none) :
    shPairStep B idA ac idB = (ac.1, ac.2 + 1) := by
  rw [shPairStep, if_neg hhas, hA]

theorem shPairStep_noB (B : List (String × AABBQ)) (idA idB : String)
    (ac : List (String × CollisionPairQ) × ℕ) (bA : AABBQ)
    (hhas : ¬ (mapGet ac.1 (pairKey idA idB)).isSome = true)
    (hA : mapGet B idA = some bA) (hB : mapGet B idB = none) :
    shPairStep B idA ac idB = (ac.1, ac.2 + 1) := by
  rw [shPairStep, if_neg hhas, hA, hB]

theorem shPairStep_test (B : List (String × AABBQ)) (idA idB : String)
    (ac : List (String × CollisionPairQ) × ℕ) (bA bB : AABBQ)
    (hhas : ¬ (mapGet ac.1 (pairKey idA idB)).isSome = true)
    (hA : mapGet B idA = some bA) (hB : mapGet B idB = some bB) :
    shPairStep B idA ac idB =
      if aabbIntersects bA bB = true then
        (mapSet ac.1 (pairKey idA idB) (canonPair idA idB), ac.2 + 1)
      else (ac.1, ac.2 + 1) := by
  rw [shPairStep, if_neg hhas, hA, hB]

theorem shPairStep_sound (B : List (String × AABBQ)) (idA idB : String)
    (ac : List (String × CollisionPairQ) × ℕ) (h : pairsWF B ac.1)
    (hne : idA ≠ idB) : pairsWF B (shPairStep B idA ac idB).1 := by
  by_cases hhas : (mapGet ac.1 (pairKey idA idB)).isSome = true
  · rw [shPairStep_has B idA idB ac hhas]
    exact h
  · rcases hA : mapGet B idA with _ | bA
    · rw [shPairStep_noA B idA idB ac hhas hA]
      exact h
    · rcases hB : mapGet B idB with _ | bB
      · rw [shPairStep_noB B idA idB ac bA hhas hA hB]
        exact h
      · rw [shPairStep_test B idA idB ac bA bB hhas hA hB]
        by_cases hint : aabbIntersects bA bB = true
        · rw [if_pos hint]
          intro e he
          rcases mem_mapSet _ _ _ e he with hold | hnew
          · exact h e hold
          · subst hnew
            exact ⟨idA, idB, bA, bB, hne, hA, hB, hint, rfl, rfl⟩
        · rw [if_neg hint]
          exact h

theorem shPairStep_mono (B : List (String × AABBQ)) (idA idB k : String)
    (ac : List (String × CollisionPairQ) × ℕ)
    (h : (mapGet ac.1 k).isSome = true) :
    (mapGet (shPairStep B idA ac idB).1 k).isSome = true := by
  by_cases hhas : (mapGet ac.1 (pairKey idA idB)).isSome = true
  · rw [shPairStep_has B idA idB ac hhas]
    exact h
  · rcases hA : mapGet B idA with _ | bA
    · rw [shPairStep_noA B idA idB ac hhas hA]
      exact h
    · rcases hB : mapGet B idB with _ | bB
      · rw [shPairStep_noB B idA idB ac bA hhas hA hB]
        exact h
      · rw [shPairStep_test B idA idB ac bA bB hhas hA hB]
        by_cases hint : aabbIntersects bA bB = true
        · rw [if_pos hint]
          show (mapGet (mapSet ac.1 (pairKey idA idB) (canonPair idA idB)) k).isSome = true
          rw [mapGet_mapSet]
          by_cases hk : k = pairKey idA idB
          · rw [if_pos hk]; rfl
          · rw [if_neg hk]; exact h
        · rw [if_neg hint]
          exact h

theorem foldl_shPairStep_sound (B : List (String × AABBQ)) (idA : String) :
    ∀ (rest : List String) (ac : List (String × CollisionPairQ) × ℕ),
      pairsWF B ac.1 → idA ∉ rest →
      pairsWF B (rest.foldl (shPairStep B idA) ac).1 := by
  intro rest
  induction rest with
  | nil => intro ac h _; exact h
  | cons c rest ih =>
    intro ac h hnotin
    rw [List.foldl_cons]
    exact ih _ (shPairStep_sound B idA c ac h
      (fun hc => hnotin (hc ▸ List.mem_cons_self c rest)))
      (fun hc => hnotin (List.mem_cons_of_mem c hc))

theorem foldl_shPairStep_mono (B : List (String × AABBQ)) (idA k : String) :
    ∀ (rest : List String) (ac : List (String × CollisionPairQ) × ℕ),
      (mapGet ac.1 k).isSome = true →
      (mapGet (rest.foldl (shPairStep B idA) ac).1 k).isSome = true := by
  intro rest
  induction rest with
  | nil => intro ac h; exact h
  | cons c rest ih =>
    intro ac h
    rw [List.foldl_cons]
    exact ih _ (shPairStep_mono B idA c k ac h)

theorem foldl_shPairStep_hit (B : List (String × AABBQ)) (idA : String)
    (bA : AABBQ) (hA : mapGet B idA = some bA) :
    ∀ (rest : List String) (ac : List (String × CollisionPairQ) × ℕ)
      (idB : String) (bB : AABBQ), idB ∈ rest → mapGet B idB = some bB →
      aabbIntersects bA bB = true →
      (mapGet (rest.foldl (shPairStep B idA) ac).1 (pairKey idA idB)).isSome = true := by
  intro rest
  induction rest with
  | nil => intro ac idB bB h; simp at h
  | cons c rest ih =>
    intro ac idB bB hmem hB hint
    rw [List.foldl_cons]
    rcases List.mem_cons.mp hmem with hc | hr
    · subst hc
      apply foldl_shPairStep_mono
      by_cases hhas : (mapGet ac.1 (pairKey idA idB)).isSome = true
      · rw [shPairStep_has B idA idB ac hhas]
        exact hhas
      · rw [shPairStep_test B idA idB ac bA bB hhas hA hB, if_pos hint]
        show (mapGet (mapSet ac.1 (pairKey idA idB) (canonPair idA idB))
          (pairKey idA idB)).isSome = true
        rw [mapGet_mapSet, if_pos rfl]
        rfl
    · exact ih _ idB bB hr hB hint

theorem shCellPairs_sound (B : List (String × AABBQ)) :
    ∀ (ids : List String) (ac : List (String × CollisionPairQ) × ℕ),
      pairsWF B ac.1 → ids.Nodup → pairsWF B (shCellPairs B ids ac).1 := by
  intro ids
  induction ids with
  | nil => intro ac h _; exact h
  | cons idA rest ih =>
    intro ac h hnd
    rw [List.nodup_cons] at hnd
    rw [shCellPairs]
    exact ih _ (foldl_shPairStep_sound B idA rest ac h hnd.1) hnd.2

theorem shCellPairs_mono (B : List (String × AABBQ)) (k : String) :
    ∀ (ids : List String) (ac : List (String × CollisionPairQ) × ℕ),
      (mapGet ac.1 k).isSome = true →
      (mapGet (shCellPairs B ids ac).1 k).isSome = true := by
  intro ids
  induction ids with
  | nil => intro ac h; exact h
  | cons idA rest ih =>
    intro ac h
    rw [shCellPairs]
    exact ih _ (foldl_shPairStep_mono B idA k rest ac h)

theorem shCellPairs_hit (B : List (String × AABBQ)) :
    ∀ (ids : List String) (ac : List (String × CollisionPairQ) × ℕ)
      (a b : String) (bA bB : AABBQ), a ∈ ids → b ∈ ids → a ≠ b →
      mapGet B a = some bA → mapGet B b = some bB →
      aabbIntersects bA bB = true →
      (mapGet (shCellPairs B ids ac).1 (pairKey a b)).isSome = true := by
  intro ids
  induction ids with
  | nil => intro ac a b bA bB h; simp at h
  | cons idA rest ih =>
    intro ac a b bA bB ha hb hne hA hB hint
    rw [shCellPairs]
    rcases List.mem_cons.mp ha with haa | har
    · subst haa
      have hbr : b ∈ rest := by
        rcases List.mem_cons.mp hb with hbb | hbr
        · exact absurd hbb.symm hne
        · exact hbr
      apply shCellPairs_mono
      exact foldl_shPairStep_hit B a bA hA rest ac b bB hbr hB hint
    · rcases List.mem_cons.mp hb with hbb | hbr
      · subst hbb
        apply shCellPairs_mono
        rw [pairKey_comm a b hne]
        apply foldl_shPairStep_hit B b bB hB rest ac a bA har hA
        rw [aabbIntersects_comm]
        exact hint
      · exact ih _ a b bA bB har hbr hne hA hB hint

theorem cellsFold_sound (B : List (String × AABBQ)) :
    ∀ (cells : List (String × List String)) (acc : List (String × CollisionPairQ) × ℕ),
      pairsWF B acc.1 → (∀ e ∈ cells, e.2.Nodup) →
      pairsWF B (cells.foldl (fun acc cell => shCellPairs B cell.2 acc) acc).1 := by
  intro cells
  induction cells with
  | nil => intro acc h _; exact h
  | cons cell rest ih =>
    intro acc h hnd
    rw [List.foldl_cons]
    exact ih _ (shCellPairs_sound B cell.2 acc h
      (hnd cell (List.mem_cons_self cell rest)))
      (fun e he => hnd e (List.mem_cons_of_mem cell he))

theorem cellsFold_mono (B : List (String × AABBQ)) (k : String) :
    ∀ (cells : List (String × List String)) (acc : List (String × CollisionPairQ) × ℕ),
      (mapGet acc.1 k).isSome = true →
      (mapGet (cells.foldl (fun acc cell => shCellPairs B cell.2 acc) acc).1 k).isSome = true := by
  intro cells
  induction cells with
  | nil => intro acc h; exact h
  | cons cell rest ih =>
    intro acc h
    rw [List.foldl_cons]
    exact ih _ (shCellPairs_mono B k cell.2 acc h)

theorem cellsFold_hit (B : List (String × AABBQ)) :
    ∀ (cells : List (String × List String)) (acc : List (String × CollisionPairQ) × ℕ)
      (k0 : String) (s : List String) (a b : String) (bA bB : AABBQ),
      (k0, s) ∈ cells → a ∈ s → b ∈ s → a ≠ b →
      mapGet B a = some bA → mapGet B b = some bB →
      aabbIntersects bA bB = true →
      (mapGet (cells.foldl (fun acc cell => shCellPairs B cell.2 acc) acc).1
        (pairKey a b)).isSome = true := by
  intro cells
  induction cells with
  | nil => intro acc k0 s a b bA bB h; simp at h
  | cons cell rest ih =>
    intro acc k0 s a b bA bB hmem ha hb hne hA hB hint
    rw [List.foldl_cons]
    rcases List.mem_cons.mp hmem with hc | hr
    · apply cellsFold_mono
      have hs : cell.2 = s := (congrArg Prod.snd hc).symm
      rw [← hs] at ha hb
      exact shCellPairs_hit B cell.2 acc a b bA bB ha hb hne hA hB hint
    · exact ih _ k0 s a b bA bB hr ha hb hne hA hB hint

theorem cpo_fst_mem (a b : String) : (cpo a b).1 = a ∨ (cpo a b).1 = b := by
  rw [cpo]
  by_cases h : a < b <;> simp [h]

theorem cpo_snd_mem (a b : String) : (cpo a b).2 = a ∨ (cpo a b).2 = b := by
  rw [cpo]
  by_cases h : a < b <;> simp [h]

theorem mem_canonSet_sh (c : ℚ) (hc : 0 < c) (L : List (String × AABBQ))
    (hnd : (L.map Prod.fst).Nodup)
    (hcf : ∀ p ∈ L, colonFree p.1 = true)
    (hwf : ∀ p ∈ L, aabbWF p.2 = true)
    (u v : String) :
    ((u, v) ∈ canonSet (shQueryPairs (shFromList c L)).pairs ↔
      u < v ∧ collidesIn L u v) := by
  have hB : (shFromList c L).entityBounds = L := shFromList_entityBounds c L hnd
  have hcells : ∀ k x, (∃ s, mapGet (shFromList c L).cells k = some s ∧ x ∈ s) ↔
      ∃ b, (x, b) ∈ L ∧ k ∈ getCellsForBounds c b := by
    intro k x
    have := shFold_cells_spec c L ⟨c, [], [], []⟩ rfl k x
    rw [shFromList]
    rw [this]
    simp [mapGet_nil]
  have hcnodup : ∀ e ∈ (shFromList c L).cells, e.2.Nodup := by
    rw [shFromList]
    exact shFold_cells_nodup L ⟨c, [], [], []⟩ (by intro e he; simp at he)
  have hwfpairs : pairsWF (shFromList c L).entityBounds
      ((shFromList c L).cells.foldl
        (fun acc cell => shCellPairs (shFromList c L).entityBounds cell.2 acc)
        ([], 0)).1 :=
    cellsFold_sound _ _ ([], 0) (by intro e he; simp at he) hcnodup
  have hpairs : (shQueryPairs (shFromList c L)).pairs =
      ((shFromList c L).cells.foldl
        (fun acc cell => shCellPairs (shFromList c L).entityBounds cell.2 acc)
        ([], 0)).1.map (fun p => p.2) := rfl
  constructor
  · intro hin
    rw [hpairs, mem_canonSet_iff] at hin
    obtain ⟨p, hp, hcpo⟩ := hin
    rw [List.mem_map] at hp
    obtain ⟨e, he, hep⟩ := hp
    obtain ⟨a, b, bA, bB, hne, hA, hB2, hint, hcanon, _⟩ := hwfpairs e he
    rw [hB] at hA hB2
    rw [← hep, hcanon, cpo_canonPair a b hne] at hcpo
    rcases lt_or_gt_of_ne hne with hlt | hgt
    · rw [cpo_eq_self_of_lt _ _ hlt, Prod.ext_iff] at hcpo
      obtain ⟨hu, hv⟩ := hcpo
      simp only [] at hu hv
      subst hu; subst hv
      exact ⟨hlt, hne, bA, bB, mapGet_mem hA, mapGet_mem hB2, hint⟩
    · rw [cpo_eq_swap_of_gt _ _ hgt, Prod.ext_iff] at hcpo
      obtain ⟨hu, hv⟩ := hcpo
      simp only [] at hu hv
      subst hu; subst hv
      refine ⟨hgt, hne.symm, bB, bA, mapGet_mem hB2, mapGet_mem hA, ?_⟩
      rw [aabbIntersects_comm]
      exact hint
  · rintro ⟨huv, hne, bx, byy, hxL, hyL, hint⟩
    have hBu : mapGet L u = some bx := mapGet_of_mem_nodup hnd hxL
    have hBv : mapGet L v = some byy := mapGet_of_mem_nodup hnd hyL
    obtain ⟨k, hk1, hk2⟩ := intersect_share_cell c hc bx byy
      (hwf (u, bx) hxL) (hwf (v, byy) hyL) hint
    obtain ⟨s, hks, hus⟩ := (hcells k u).mpr ⟨bx, hxL, hk1⟩
    obtain ⟨s2, hks2, hvs2⟩ := (hcells k v).mpr ⟨byy, hyL, hk2⟩
    have hss : s2 = s := by
      rw [hks] at hks2
      injection hks2 with h
      exact h.symm
    rw [hss] at hvs2
    have hcellmem : (k, s) ∈ (shFromList c L).cells := mapGet_mem hks
    have hhit := cellsFold_hit (shFromList c L).entityBounds
      (shFromList c L).cells ([], 0) k s u v bx byy hcellmem hus hvs2 hne
      (by rw [hB]; exact hBu) (by rw [hB]; exact hBv) hint
    obtain ⟨pr, hpr⟩ := Option.isSome_iff_exists.mp hhit
    have hprmem := mapGet_mem hpr
    obtain ⟨a, b, bA, bB, hne2, hA, hB2, _, hcanon, hkey⟩ :=
      hwfpairs _ hprmem
    simp only [] at hcanon hkey
    have hcfa : colonFree a = true := hcf (a, bA) (mapGet_mem (by rw [← hB]; exact hA))
    have hcfu : colonFree u = true := hcf (u, bx) hxL
    have hkeq : pairKey a b = pairKey u v := hkey.symm
    rw [pairKey_eq_cpo, pairKey_eq_cpo] at hkeq
    have hcfab : colonFree (cpo a b).1 = true := by
      rcases cpo_fst_mem a b with h | h
      · rw [h]; exact hcfa
      · rw [h]
        exact hcf (b, bB) (mapGet_mem (by rw [← hB]; exact hB2))
    have hcfuv : colonFree (cpo u v).1 = true := by
      rcases cpo_fst_mem u v with h | h
      · rw [h]; exact hcfu
      · rw [h]; exact hcf (v, byy) hyL
    obtain ⟨hfst, hsnd⟩ := string_colon_inj _ _ _ _ hcfab hcfuv hkeq
    have hcpoeq : cpo a b = cpo u v := Prod.ext hfst hsnd
    have hpruv : pr = canonPair u v := by
      rw [hcanon, canonPair_eq_cpo, canonPair_eq_cpo, hcpoeq]
    rw [hpairs, mem_canonSet_iff]
    refine ⟨pr, List.mem_map_of_mem (fun p => p.2) hprmem, ?_⟩
    rw [hpruv, cpo_canonPair u v hne, cpo_eq_self_of_lt u v huv]

theorem ratFloor_zero : Rat.floor (0 : ℚ) = 0 := by
  rw [ratFloor_eq_intFloor]; norm_num

theorem gcb_unit : getCellsForBounds 1 ⟨⟨0,0,0⟩,⟨0,0,0⟩⟩ = [cellKeyStr 0 0 0] := by
  simp [getCellsForBounds, intRange, ratFloor_zero, List.range_succ]

theorem shState_colon_eval :
    shFromList 1 [("a", ⟨⟨0,0,0⟩,⟨0,0,0⟩⟩), ("b:c", ⟨⟨0,0,0⟩,⟨0,0,0⟩⟩),
        ("a:b", ⟨⟨0,0,0⟩,⟨0,0,0⟩⟩), ("c", ⟨⟨0,0,0⟩,⟨0,0,0⟩⟩)] =
      ⟨1, [(cellKeyStr 0 0 0, ["a", "b:c", "a:b", "c"])],
       [("a", ⟨⟨0,0,0⟩,⟨0,0,0⟩⟩), ("b:c", ⟨⟨0,0,0⟩,⟨0,0,0⟩⟩),
        ("a:b", ⟨⟨0,0,0⟩,⟨0,0,0⟩⟩), ("c", ⟨⟨0,0,0⟩,⟨0,0,0⟩⟩)],
       [("a", [cellKeyStr 0 0 0]), ("b:c", [cellKeyStr 0 0 0]),
        ("a:b", [cellKeyStr 0 0 0]), ("c", [cellKeyStr 0 0 0])]⟩ := by
  simp +decide [shFromList, shInsert, gcb_unit, cellsInsert, mapGet, mapSet,
    setAdd, List.find?]

theorem shQuery_colon_eval :
    (shQueryPairs (shFromList 1 [("a", ⟨⟨0,0,0⟩,⟨0,0,0⟩⟩),
        ("b:c", ⟨⟨0,0,0⟩,⟨0,0,0⟩⟩), ("a:b", ⟨⟨0,0,0⟩,⟨0,0,0⟩⟩),
        ("c", ⟨⟨0,0,0⟩,⟨0,0,0⟩⟩)])).pairs =
      [⟨"a", "b:c"⟩, ⟨"a", "a:b"⟩, ⟨"a", "c"⟩, ⟨"a:b", "b:c"⟩, ⟨"b:c", "c"⟩] := by
  rw [shState_colon_eval]
  simp +decide [shQueryPairs, shCellPairs, shPairStep, pairKey, canonPair,
    mapGet, mapSet, setAdd, List.find?, aabbIntersects]

theorem simpleQuery_colon_eval :
    (simpleQueryPairs (simpleFromList [("a", ⟨⟨0,0,0⟩,⟨0,0,0⟩⟩),
        ("b:c", ⟨⟨0,0,0⟩,⟨0,0,0⟩⟩), ("a:b", ⟨⟨0,0,0⟩,⟨0,0,0⟩⟩),
        ("c", ⟨⟨0,0,0⟩,⟨0,0,0⟩⟩)])).pairs =
      [⟨"a", "b:c"⟩, ⟨"a", "a:b"⟩, ⟨"a", "c"⟩, ⟨"b:c", "a:b"⟩, ⟨"b:c", "c"⟩,
       ⟨"a:b", "c"⟩] := by
  simp +decide [simpleQueryPairs, simplePairsLoop, simpleFromList, mapSet,
    aabbIntersects]

/-- Counterexample to the unconditional C2 claim: with entity ids that contain
the colon character used by the spatial-hash dedup key template, the pairs
("a","b:c") and ("a:b","c") share the key "a:b:c", so the spatial-hash backend
drops one pair that the brute-force backend reports. -/
theorem broadphase_backends_equiv_false :
    canonSet (shQueryPairs (shFromList 1 [("a", ⟨⟨0,0,0⟩,⟨0,0,0⟩⟩),
        ("b:c", ⟨⟨0,0,0⟩,⟨0,0,0⟩⟩), ("a:b", ⟨⟨0,0,0⟩,⟨0,0,0⟩⟩),
        ("c", ⟨⟨0,0,0⟩,⟨0,0,0⟩⟩)])).pairs ≠
      canonSet (simpleQueryPairs (simpleFromList [("a", ⟨⟨0,0,0⟩,⟨0,0,0⟩⟩),
        ("b:c", ⟨⟨0,0,0⟩,⟨0,0,0⟩⟩), ("a:b", ⟨⟨0,0,0⟩,⟨0,0,0⟩⟩),
        ("c", ⟨⟨0,0,0⟩,⟨0,0,0⟩⟩)])).pairs := by
  rw [shQuery_colon_eval, simpleQuery_colon_eval]
  simp +decide [canonSet]

/-- C2: for any entity set inserted identically into the three broadphase
backends, with a positive cell size, pairwise distinct colon-free ids and
well-formed AABBs, brute-force, spatial-hash and sweep-and-prune queryPairs
return the same canonicalized order-independent pair set. -/
theorem broadphase_backends_equiv (c : ℚ) (L : List (String × AABBQ))
    (hc : 0 < c) (hnd : (L.map Prod.fst).Nodup)
    (hcf : ∀ p ∈ L, colonFree p.1 = true)
    (hwf : ∀ p ∈ L, aabbWF p.2 = true) :
    canonSet (simpleQueryPairs (simpleFromList L)).pairs =
      canonSet (shQueryPairs (shFromList c L)).pairs ∧
    canonSet (simpleQueryPairs (simpleFromList L)).pairs =
      canonSet (sapQueryPairs (sapFromList L)).pairs := by
  rw [simpleFromList_eq_self L hnd]
  constructor
  · apply Finset.ext
    intro x
    obtain ⟨u, v⟩ := x
    rw [mem_canonSet_simple u v L hnd, mem_canonSet_sh c hc L hnd hcf hwf u v]
  · apply Finset.ext
    intro x
    obtain ⟨u, v⟩ := x
    rw [mem_canonSet_simple u v L hnd, mem_canonSet_sap L hnd u v]

theorem broadphase_backends_equiv_witness :
    canonSet (simpleQueryPairs (simpleFromList [("a", ⟨⟨0,0,0⟩,⟨1,1,1⟩⟩),
        ("b", ⟨⟨0,0,0⟩,⟨1,1,1⟩⟩)])).pairs =
      canonSet (shQueryPairs (shFromList 1 [("a", ⟨⟨0,0,0⟩,⟨1,1,1⟩⟩),
        ("b", ⟨⟨0,0,0⟩,⟨1,1,1⟩⟩)])).pairs ∧
    canonSet (simpleQueryPairs (simpleFromList [("a", ⟨⟨0,0,0⟩,⟨1,1,1⟩⟩),
        ("b", ⟨⟨0,0,0⟩,⟨1,1,1⟩⟩)])).pairs =
      canonSet (sapQueryPairs (sapFromList [("a", ⟨⟨0,0,0⟩,⟨1,1,1⟩⟩),
        ("b", ⟨⟨0,0,0⟩,⟨1,1,1⟩⟩)])).pairs :=
  broadphase_backends_equiv 1 [("a", ⟨⟨0,0,0⟩,⟨1,1,1⟩⟩),
    ("b", ⟨⟨0,0,0⟩,⟨1,1,1⟩⟩)] (by norm_num) (by decide) (by decide) (by decide)

theorem canonPair_lt (a b : String) (h : a ≠ b) :
    (canonPair a b).entityA < (canonPair a b).entityB := by
  rcases lt_or_gt_of_ne h with hlt | hgt
  · simp [canonPair, hlt]
  · simp only [canonPair, if_neg (not_lt_of_gt hgt)]
    exact hgt

theorem sapLoop_pairs_lt :
    ∀ (l : List SAPEntryQ), (l.map SAPEntryQ.id).Nodup →
      ∀ p ∈ (sapPairsLoop l).1, p.entityA < p.entityB := by
  intro l
  induction l with
  | nil =>
    intro _ p hp
    simp [sapPairsLoop] at hp
  | cons a rest ih =>
    intro hnd p hp
    simp only [List.map_cons, List.nodup_cons] at hnd
    obtain ⟨hhead, hndrest⟩ := hnd
    have hloop : (sapPairsLoop (a :: rest)).1 =
        (rest.takeWhile (fun b => b.minX ≤ a.maxX)).filterMap (fun b =>
          if aabbIntersects a.bounds b.bounds then some (canonPair a.id b.id)
          else none) ++ (sapPairsLoop rest).1 := rfl
    rw [hloop, List.mem_append] at hp
    rcases hp with hin | hrec
    · rw [List.mem_filterMap] at hin
      obtain ⟨b, hbmem, hif⟩ := hin
      have hbrest : b ∈ rest :=
        (List.takeWhile_sublist (fun b => decide (b.minX ≤ a.maxX))).subset hbmem
      by_cases hint : aabbIntersects a.bounds b.bounds = true
      · rw [if_pos hint] at hif
        injection hif with hif
        have hne : a.id ≠ b.id := by
          intro hEq
          exact hhead (hEq ▸ List.mem_map_of_mem SAPEntryQ.id hbrest)
        rw [← hif]
        exact canonPair_lt a.id b.id hne
      · rw [if_neg hint] at hif
        exact absurd hif (by simp)
    · exact ih hndrest p hrec

theorem simpleQuery_order_eval :
    (⟨"b", "a"⟩ : CollisionPairQ) ∈
      (simpleQueryPairs (simpleFromList [("b", ⟨⟨0,0,0⟩,⟨0,0,0⟩⟩),
        ("a", ⟨⟨0,0,0⟩,⟨0,0,0⟩⟩)])).pairs := by
  simp +decide [simpleQueryPairs, simplePairsLoop, simpleFromList, mapSet,
    aabbIntersects]

/-- Counterexample to the all-backends part of C6: the brute-force backend
pushes pairs in raw iteration order with no canonicalization, so inserting
"b" before "a" with overlapping boxes emits the pair ("b","a") although
"b" is not smaller than "a". -/
theorem simple_pairs_not_canonical :
    (⟨"b", "a"⟩ : CollisionPairQ) ∈
      (simpleQueryPairs (simpleFromList [("b", ⟨⟨0,0,0⟩,⟨0,0,0⟩⟩),
        ("a", ⟨⟨0,0,0⟩,⟨0,0,0⟩⟩)])).pairs ∧
    ¬ (("b" : String) < "a") := by
  refine ⟨simpleQuery_order_eval, ?_⟩
  rw [String.lt_iff_toList_lt]
  decide

/-- C6: every pair emitted by the spatial-hash backend, and, when the
inserted ids are pairwise distinct, every pair emitted by the sweep-and-prune
backend, is canonicalized with entityA smaller than entityB in id order.
The brute-force backend does not canonicalize (see the counterexample). -/
theorem queryPairs_canonicalized (c : ℚ) (L : List (String × AABBQ))
    (hnd : (L.map Prod.fst).Nodup) :
    (∀ p ∈ (shQueryPairs (shFromList c L)).pairs, p.entityA < p.entityB) ∧
    (∀ p ∈ (sapQueryPairs (sapFromList L)).pairs, p.entityA < p.entityB) := by
  constructor
  · intro p hp
    have hwfpairs : pairsWF (shFromList c L).entityBounds
        ((shFromList c L).cells.foldl
          (fun acc cell => shCellPairs (shFromList c L).entityBounds cell.2 acc)
          ([], 0)).1 := by
      refine cellsFold_sound _ _ ([], 0) (by intro e he; simp at he) ?_
      rw [shFromList]
      exact shFold_cells_nodup L ⟨c, [], [], []⟩ (by intro e he; simp at he)
    have hpairs : (shQueryPairs (shFromList c L)).pairs =
        ((shFromList c L).cells.foldl
          (fun acc cell => shCellPairs (shFromList c L).entityBounds cell.2 acc)
          ([], 0)).1.map (fun p => p.2) := rfl
    rw [hpairs, List.mem_map] at hp
    obtain ⟨e, he, hep⟩ := hp
    obtain ⟨a, b, bA, bB, hne, _, _, _, hcanon, _⟩ := hwfpairs e he
    rw [← hep, hcanon]
    exact canonPair_lt a b hne
  · intro p hp
    have hentries : (sapFromList L).entries =
        L.map (fun q => (⟨q.1, q.2, q.2.lo.x, q.2.hi.x⟩ : SAPEntryQ)) := by
      rw [sapFromList, sapFromList_entries]
      rfl
    have hperm : ((sapFromList L).entries.mergeSort
        (fun a b => a.minX ≤ b.minX)).Perm (sapFromList L).entries :=
      List.mergeSort_perm _ _
    have hndsorted : (((sapFromList L).entries.mergeSort
        (fun a b => a.minX ≤ b.minX)).map SAPEntryQ.id).Nodup := by
      refine (List.Perm.nodup_iff (List.Perm.map SAPEntryQ.id hperm)).mpr ?_
      rw [hentries, List.map_map]
      have : (SAPEntryQ.id ∘ fun q : String × AABBQ =>
          (⟨q.1, q.2, q.2.lo.x, q.2.hi.x⟩ : SAPEntryQ)) = Prod.fst := rfl
      rw [this]
      exact hnd
    have hpairs : (sapQueryPairs (sapFromList L)).pairs =
        (sapPairsLoop ((sapFromList L).entries.mergeSort
          (fun a b => a.minX ≤ b.minX))).1 := rfl
    rw [hpairs] at hp
    exact sapLoop_pairs_lt _ hndsorted p hp

theorem queryPairs_canonicalized_witness :
    (∀ p ∈ (shQueryPairs (shFromList 1 [("a", ⟨⟨0,0,0⟩,⟨1,1,1⟩⟩),
        ("b", ⟨⟨0,0,0⟩,⟨1,1,1⟩⟩)])).pairs, p.entityA < p.entityB) ∧
    (∀ p ∈ (sapQueryPairs (sapFromList [("a", ⟨⟨0,0,0⟩,⟨1,1,1⟩⟩),
        ("b", ⟨⟨0,0,0⟩,⟨1,1,1⟩⟩)])).pairs, p.entityA < p.entityB) :=
  queryPairs_canonicalized 1 [("a", ⟨⟨0,0,0⟩,⟨1,1,1⟩⟩),
    ("b", ⟨⟨0,0,0⟩,⟨1,1,1⟩⟩)] (by decide)

theorem raycastAabb_inside_eval :
    raycastAabb ⟨0,0,0⟩ ⟨1,1,1⟩ ⟨⟨-1,-1,-1⟩,⟨9,9,9⟩⟩ 5 =
      ⟨true, some (XR.q 9), some ⟨XR.q 9, XR.q 9, XR.q 9⟩, some (qv ⟨1,0,0⟩)⟩ := by
  norm_num [raycastAabb, jsMul, jsMin, jsMax, jsLt, jsLe, jsAdd, jsSub, jsNeg,
    xabs, xvadd, xvmul, qv, min_def, max_def]

theorem raycastAabb_nan_eval :
    (raycastAabb ⟨0,0,0⟩ ⟨0,1,1⟩ ⟨⟨0,2,2⟩,⟨5,4,4⟩⟩ 100).hit = true ∧
    (raycastAabb ⟨0,0,0⟩ ⟨0,1,1⟩ ⟨⟨0,2,2⟩,⟨5,4,4⟩⟩ 100).distance = some XR.nan := by
  norm_num [raycastAabb, jsMul, jsMin, jsMax, jsLt, jsLe, jsAdd, jsSub, jsNeg,
    xabs, xvadd, xvmul, qv, min_def, max_def]

theorem raycastSphere_zero_dir_eval :
    (raycastSphere (fun _ => 0) ⟨0,0,0⟩ ⟨0,0,0⟩ ⟨5,0,0⟩ 1 100).hit = true ∧
    (raycastSphere (fun _ => 0) ⟨0,0,0⟩ ⟨0,0,0⟩ ⟨5,0,0⟩ 1 100).distance = some XR.nan := by
  norm_num [raycastSphere, jsDivQ, jsLt, vsub, vdot, xvadd, xvmul, qv, jsMul, jsAdd]

theorem jsMin_ne_nan (a b : XR) (ha : a ≠ XR.nan) (hb : b ≠ XR.nan) :
    jsMin a b ≠ XR.nan := by
  cases a <;> cases b <;> simp_all [jsMin]

theorem jsMax_ne_nan (a b : XR) (ha : a ≠ XR.nan) (hb : b ≠ XR.nan) :
    jsMax a b ≠ XR.nan := by
  cases a <;> cases b <;> simp_all [jsMax]

theorem jsMax_pinf_left (b : XR) (hb : b ≠ XR.nan) :
    jsMax XR.pinf b = XR.pinf := by
  cases b <;> simp_all [jsMax]

theorem jsMax_pinf_right (a : XR) (ha : a ≠ XR.nan) :
    jsMax a XR.pinf = XR.pinf := by
  cases a <;> simp_all [jsMax]

theorem jsMin_ninf_left (b : XR) (hb : b ≠ XR.nan) :
    jsMin XR.ninf b = XR.ninf := by
  cases b <;> simp_all [jsMin]

theorem jsMin_ninf_right (a : XR) (ha : a ≠ XR.nan) :
    jsMin a XR.ninf = XR.ninf := by
  cases a <;> simp_all [jsMin]

theorem jsLe_left_jsMax (a b : XR) (ha : a ≠ XR.nan) (hb : b ≠ XR.nan) :
    jsLe a (jsMax a b) = true := by
  cases a <;> cases b <;> simp_all [jsMax, jsLe, le_max_left]

theorem jsLe_right_jsMax (a b : XR) (ha : a ≠ XR.nan) (hb : b ≠ XR.nan) :
    jsLe b (jsMax a b) = true := by
  cases a <;> cases b <;> simp_all [jsMax, jsLe, le_max_right]

theorem jsLe_jsMin_left (a b : XR) (ha : a ≠ XR.nan) (hb : b ≠ XR.nan) :
    jsLe (jsMin a b) a = true := by
  cases a <;> cases b <;> simp_all [jsMin, jsLe, min_le_left]

theorem jsLe_jsMin_right (a b : XR) (ha : a ≠ XR.nan) (hb : b ≠ XR.nan) :
    jsLe (jsMin a b) b = true := by
  cases a <;> cases b <;> simp_all [jsMin, jsLe, min_le_right]

theorem jsLe_trans (a b c : XR) (h1 : jsLe a b = true) (h2 : jsLe b c = true) :
    jsLe a c = true := by
  cases a <;> cases b <;> cases c <;> simp_all [jsLe] <;> exact le_trans h1 h2

theorem jsMin_eq_pinf (a b : XR) (ha : a ≠ XR.nan) (hb : b ≠ XR.nan)
    (h : jsMin a b = XR.pinf) : a = XR.pinf ∧ b = XR.pinf := by
  cases a <;> cases b <;> simp_all [jsMin]

theorem jsMax_eq_ninf (a b : XR) (ha : a ≠ XR.nan) (hb : b ≠ XR.nan)
    (h : jsMax a b = XR.ninf) : a = XR.ninf ∧ b = XR.ninf := by
  cases a <;> cases b <;> simp_all [jsMax]

theorem mul_pinf_pos (a : ℚ) (h : 0 < a) : jsMul (XR.q a) XR.pinf = XR.pinf := by
  simp [jsMul, h]

theorem mul_pinf_neg (a : ℚ) (h : a < 0) : jsMul (XR.q a) XR.pinf = XR.ninf := by
  simp only [jsMul]
  rw [if_neg (by linarith), if_pos h]

theorem mul_pinf_ne_nan (a : ℚ) (h : a ≠ 0) :
    jsMul (XR.q a) XR.pinf ≠ XR.nan := by
  rcases lt_trichotomy a 0 with hlt | heq | hgt
  · rw [mul_pinf_neg a hlt]; simp
  · exact absurd heq h
  · rw [mul_pinf_pos a hgt]; simp

theorem axis_ne_nan (o lo hi d : ℚ)
    (h : d ≠ 0 ∨ (o ≠ lo ∧ o ≠ hi)) :
    jsMul (XR.q (lo - o)) (if d ≠ 0 then XR.q (1/d) else XR.pinf) ≠ XR.nan ∧
    jsMul (XR.q (hi - o)) (if d ≠ 0 then XR.q (1/d) else XR.pinf) ≠ XR.nan := by
  by_cases hd : d = 0
  · rcases h with h | ⟨h1, h2⟩
    · exact absurd hd h
    · rw [if_neg (not_not_intro hd)]
      exact ⟨mul_pinf_ne_nan _ (sub_ne_zero.mpr (Ne.symm h1)),
        mul_pinf_ne_nan _ (sub_ne_zero.mpr (Ne.symm h2))⟩
  · rw [if_pos hd]
    simp [jsMul]

theorem axis_shape (o lo hi d : ℚ) (hwfc : lo ≤ hi) (hviol : o < lo ∨ hi < o) :
    jsMin (jsMul (XR.q (lo - o)) (if d ≠ 0 then XR.q (1/d) else XR.pinf))
        (jsMul (XR.q (hi - o)) (if d ≠ 0 then XR.q (1/d) else XR.pinf)) =
      XR.pinf ∨
    jsMax (jsMul (XR.q (lo - o)) (if d ≠ 0 then XR.q (1/d) else XR.pinf))
        (jsMul (XR.q (hi - o)) (if d ≠ 0 then XR.q (1/d) else XR.pinf)) =
      XR.ninf ∨
    (∃ m : ℚ, 0 < m ∧
      jsMin (jsMul (XR.q (lo - o)) (if d ≠ 0 then XR.q (1/d) else XR.pinf))
          (jsMul (XR.q (hi - o)) (if d ≠ 0 then XR.q (1/d) else XR.pinf)) =
        XR.q m) ∨
    (∃ M : ℚ, M < 0 ∧
      jsMax (jsMul (XR.q (lo - o)) (if d ≠ 0 then XR.q (1/d) else XR.pinf))
          (jsMul (XR.q (hi - o)) (if d ≠ 0 then XR.q (1/d) else XR.pinf)) =
        XR.q M) := by
  by_cases hd : d = 0
  · rw [if_neg (not_not_intro hd)]
    rcases hviol with hlt | hgt
    · left
      rw [mul_pinf_pos _ (by linarith), mul_pinf_pos _ (by linarith)]
      rfl
    · right; left
      rw [mul_pinf_neg _ (by linarith), mul_pinf_neg _ (by linarith)]
      rfl
  · rw [if_pos hd]
    have hinv : jsMul (XR.q (lo - o)) (XR.q (1/d)) = XR.q ((lo - o) * (1/d)) := rfl
    have hinv2 : jsMul (XR.q (hi - o)) (XR.q (1/d)) = XR.q ((hi - o) * (1/d)) := rfl
    rw [hinv, hinv2]
    rcases lt_trichotomy d 0 with hneg | h0 | hpos
    · rcases hviol with hlt | hgt
      · right; right; right
        refine ⟨max ((lo - o) * (1/d)) ((hi - o) * (1/d)), ?_, rfl⟩
        have h1 : (lo - o) * (1/d) < 0 :=
          mul_neg_of_pos_of_neg (by linarith) (by exact one_div_neg.mpr hneg)
        have h2 : (hi - o) * (1/d) < 0 :=
          mul_neg_of_pos_of_neg (by linarith) (by exact one_div_neg.mpr hneg)
        exact max_lt h1 h2
      · right; right; left
        refine ⟨min ((lo - o) * (1/d)) ((hi - o) * (1/d)), ?_, rfl⟩
        have h1 : 0 < (lo - o) * (1/d) :=
          mul_pos_of_neg_of_neg (by linarith) (one_div_neg.mpr hneg)
        have h2 : 0 < (hi - o) * (1/d) :=
          mul_pos_of_neg_of_neg (by linarith) (one_div_neg.mpr hneg)
        exact lt_min h1 h2
    · exact absurd h0 hd
    · rcases hviol with hlt | hgt
      · right; right; left
        refine ⟨min ((lo - o) * (1/d)) ((hi - o) * (1/d)), ?_, rfl⟩
        have h1 : 0 < (lo - o) * (1/d) :=
          mul_pos (by linarith) (one_div_pos.mpr hpos)
        have h2 : 0 < (hi - o) * (1/d) :=
          mul_pos (by linarith) (one_div_pos.mpr hpos)
        exact lt_min h1 h2
      · right; right; right
        refine ⟨max ((lo - o) * (1/d)) ((hi - o) * (1/d)), ?_, rfl⟩
        have h1 : (lo - o) * (1/d) < 0 :=
          mul_neg_of_neg_of_pos (by linarith) (one_div_pos.mpr hpos)
        have h2 : (hi - o) * (1/d) < 0 :=
          mul_neg_of_neg_of_pos (by linarith) (one_div_pos.mpr hpos)
        exact max_lt h1 h2

theorem jsMax3_pinf (m1 m2 m3 : XR) (h1 : m1 ≠ XR.nan) (h2 : m2 ≠ XR.nan)
    (h3 : m3 ≠ XR.nan)
    (h : m1 = XR.pinf ∨ m2 = XR.pinf ∨ m3 = XR.pinf) :
    jsMax (jsMax m1 m2) m3 = XR.pinf := by
  rcases h with h | h | h
  · rw [h, jsMax_pinf_left _ h2, jsMax_pinf_left _ h3]
  · rw [h, jsMax_pinf_right _ h1, jsMax_pinf_left _ h3]
  · rw [h, jsMax_pinf_right _ (jsMax_ne_nan _ _ h1 h2)]

theorem jsMin3_ninf (m1 m2 m3 : XR) (h1 : m1 ≠ XR.nan) (h2 : m2 ≠ XR.nan)
    (h3 : m3 ≠ XR.nan)
    (h : m1 = XR.ninf ∨ m2 = XR.ninf ∨ m3 = XR.ninf) :
    jsMin (jsMin m1 m2) m3 = XR.ninf := by
  rcases h with h | h | h
  · rw [h, jsMin_ninf_left _ h2, jsMin_ninf_left _ h3]
  · rw [h, jsMin_ninf_right _ h1, jsMin_ninf_left _ h3]
  · rw [h, jsMin_ninf_right _ (jsMin_ne_nan _ _ h1 h2)]

theorem jsLe_jsMax3 (x m1 m2 m3 : XR) (h1 : m1 ≠ XR.nan) (h2 : m2 ≠ XR.nan)
    (h3 : m3 ≠ XR.nan)
    (h : jsLe x m1 = true ∨ jsLe x m2 = true ∨ jsLe x m3 = true) :
    jsLe x (jsMax (jsMax m1 m2) m3) = true := by
  have h12 : jsMax m1 m2 ≠ XR.nan := jsMax_ne_nan _ _ h1 h2
  rcases h with h | h | h
  · exact jsLe_trans _ _ _ (jsLe_trans _ _ _ h (jsLe_left_jsMax _ _ h1 h2))
      (jsLe_left_jsMax _ _ h12 h3)
  · exact jsLe_trans _ _ _ (jsLe_trans _ _ _ h (jsLe_right_jsMax _ _ h1 h2))
      (jsLe_left_jsMax _ _ h12 h3)
  · exact jsLe_trans _ _ _ h (jsLe_right_jsMax _ _ h12 h3)

theorem jsMin3_le (x m1 m2 m3 : XR) (h1 : m1 ≠ XR.nan) (h2 : m2 ≠ XR.nan)
    (h3 : m3 ≠ XR.nan)
    (h : jsLe m1 x = true ∨ jsLe m2 x = true ∨ jsLe m3 x = true) :
    jsLe (jsMin (jsMin m1 m2) m3) x = true := by
  have h12 : jsMin m1 m2 ≠ XR.nan := jsMin_ne_nan _ _ h1 h2
  rcases h with h | h | h
  · exact jsLe_trans _ _ _ (jsLe_jsMin_left _ _ h12 h3)
      (jsLe_trans _ _ _ (jsLe_jsMin_left _ _ h1 h2) h)
  · exact jsLe_trans _ _ _ (jsLe_jsMin_left _ _ h12 h3)
      (jsLe_trans _ _ _ (jsLe_jsMin_right _ _ h1 h2) h)
  · exact jsLe_trans _ _ _ (jsLe_jsMin_right _ _ h12 h3) h

theorem slabSelect_shape (t1 t2 t3 t4 t5 t6 : XR) (maxD : ℚ)
    (h1 : t1 ≠ XR.nan) (h2 : t2 ≠ XR.nan) (h3 : t3 ≠ XR.nan)
    (h4 : t4 ≠ XR.nan) (h5 : t5 ≠ XR.nan) (h6 : t6 ≠ XR.nan)
    (hsome : ∃ M : ℚ, jsMax t1 t2 = XR.q M ∨ jsMax t3 t4 = XR.q M ∨
      jsMax t5 t6 = XR.q M) :
    (jsLt (jsMin (jsMin (jsMax t1 t2) (jsMax t3 t4)) (jsMax t5 t6)) (XR.q 0) ||
     jsLt (jsMin (jsMin (jsMax t1 t2) (jsMax t3 t4)) (jsMax t5 t6))
       (jsMax (jsMax (jsMin t1 t2) (jsMin t3 t4)) (jsMin t5 t6)) ||
     jsLt (XR.q maxD) (jsMax (jsMax (jsMin t1 t2) (jsMin t3 t4)) (jsMin t5 t6)))
      = true ∨
    ((jsLt (jsMin (jsMin (jsMax t1 t2) (jsMax t3 t4)) (jsMax t5 t6)) (XR.q 0) ||
      jsLt (jsMin (jsMin (jsMax t1 t2) (jsMax t3 t4)) (jsMax t5 t6))
        (jsMax (jsMax (jsMin t1 t2) (jsMin t3 t4)) (jsMin t5 t6)) ||
      jsLt (XR.q maxD) (jsMax (jsMax (jsMin t1 t2) (jsMin t3 t4)) (jsMin t5 t6)))
       = false ∧
     ∃ x : ℚ, 0 ≤ x ∧
      (if jsLe (XR.q 0) (jsMax (jsMax (jsMin t1 t2) (jsMin t3 t4)) (jsMin t5 t6))
       then jsMax (jsMax (jsMin t1 t2) (jsMin t3 t4)) (jsMin t5 t6)
       else jsMin (jsMin (jsMax t1 t2) (jsMax t3 t4)) (jsMax t5 t6)) = XR.q x) := by
  by_cases hg : (jsLt (jsMin (jsMin (jsMax t1 t2) (jsMax t3 t4)) (jsMax t5 t6))
      (XR.q 0) ||
    jsLt (jsMin (jsMin (jsMax t1 t2) (jsMax t3 t4)) (jsMax t5 t6))
      (jsMax (jsMax (jsMin t1 t2) (jsMin t3 t4)) (jsMin t5 t6)) ||
    jsLt (XR.q maxD) (jsMax (jsMax (jsMin t1 t2) (jsMin t3 t4)) (jsMin t5 t6)))
      = true
  · exact Or.inl hg
  · right
    have hgf := Bool.eq_false_iff.mpr hg
    refine ⟨hgf, ?_⟩
    simp only [Bool.or_eq_false_iff] at hgf
    obtain ⟨⟨hg1, hg2⟩, hg3⟩ := hgf
    have htminN : jsMax (jsMax (jsMin t1 t2) (jsMin t3 t4)) (jsMin t5 t6) ≠
        XR.nan :=
      jsMax_ne_nan _ _ (jsMax_ne_nan _ _ (jsMin_ne_nan _ _ h1 h2)
        (jsMin_ne_nan _ _ h3 h4)) (jsMin_ne_nan _ _ h5 h6)
    have htmaxN : jsMin (jsMin (jsMax t1 t2) (jsMax t3 t4)) (jsMax t5 t6) ≠
        XR.nan :=
      jsMin_ne_nan _ _ (jsMin_ne_nan _ _ (jsMax_ne_nan _ _ h1 h2)
        (jsMax_ne_nan _ _ h3 h4)) (jsMax_ne_nan _ _ h5 h6)
    have htmaxNP : jsMin (jsMin (jsMax t1 t2) (jsMax t3 t4)) (jsMax t5 t6) ≠
        XR.pinf := by
      intro hp
      obtain ⟨M, hM⟩ := hsome
      have hstep := jsMin_eq_pinf _ _
        (jsMin_ne_nan _ _ (jsMax_ne_nan _ _ h1 h2) (jsMax_ne_nan _ _ h3 h4))
        (jsMax_ne_nan _ _ h5 h6) hp
      have hstep2 := jsMin_eq_pinf _ _ (jsMax_ne_nan _ _ h1 h2)
        (jsMax_ne_nan _ _ h3 h4) hstep.1
      rcases hM with h | h | h
      · rw [h] at hstep2; exact absurd hstep2.1 (by simp)
      · rw [h] at hstep2; exact absurd hstep2.2 (by simp)
      · rw [h] at hstep; exact absurd hstep.2 (by simp)
    by_cases hsel : jsLe (XR.q 0)
        (jsMax (jsMax (jsMin t1 t2) (jsMin t3 t4)) (jsMin t5 t6)) = true
    · rw [if_pos hsel]
      rcases htm : jsMax (jsMax (jsMin t1 t2) (jsMin t3 t4)) (jsMin t5 t6) with
        _ | _ | _ | x
      · exact absurd htm htminN
      · rw [htm] at hg3
        simp [jsLt] at hg3
      · rw [htm] at hsel
        simp [jsLe] at hsel
      · rw [htm] at hsel
        simp only [jsLe, decide_eq_true_eq] at hsel
        exact ⟨x, hsel, rfl⟩
    · rw [if_neg hsel]
      rcases htm : jsMin (jsMin (jsMax t1 t2) (jsMax t3 t4)) (jsMax t5 t6) with
        _ | _ | _ | x
      · exact absurd htm htmaxN
      · exact absurd htm htmaxNP
      · rw [htm] at hg1
        simp [jsLt] at hg1
      · rw [htm] at hg1
        simp only [jsLt, decide_eq_false_iff_not, not_lt] at hg1
        exact ⟨x, hg1, rfl⟩

theorem slabSelect_le_maxD (t1 t2 t3 t4 t5 t6 ta tb : XR) (maxD : ℚ)
    (h1 : t1 ≠ XR.nan) (h2 : t2 ≠ XR.nan) (h3 : t3 ≠ XR.nan)
    (h4 : t4 ≠ XR.nan) (h5 : t5 ≠ XR.nan) (h6 : t6 ≠ XR.nan)
    (hpos : (ta = t1 ∧ tb = t2) ∨ (ta = t3 ∧ tb = t4) ∨ (ta = t5 ∧ tb = t6))
    (hshape : jsMin ta tb = XR.pinf ∨ jsMax ta tb = XR.ninf ∨
      (∃ m : ℚ, 0 < m ∧ jsMin ta tb = XR.q m) ∨
      (∃ M : ℚ, M < 0 ∧ jsMax ta tb = XR.q M))
    (hguard : (jsLt (jsMin (jsMin (jsMax t1 t2) (jsMax t3 t4)) (jsMax t5 t6))
        (XR.q 0) ||
      jsLt (jsMin (jsMin (jsMax t1 t2) (jsMax t3 t4)) (jsMax t5 t6))
        (jsMax (jsMax (jsMin t1 t2) (jsMin t3 t4)) (jsMin t5 t6)) ||
      jsLt (XR.q maxD) (jsMax (jsMax (jsMin t1 t2) (jsMin t3 t4)) (jsMin t5 t6)))
        = false) :
    ∀ x : ℚ,
      (if jsLe (XR.q 0) (jsMax (jsMax (jsMin t1 t2) (jsMin t3 t4)) (jsMin t5 t6))
       then jsMax (jsMax (jsMin t1 t2) (jsMin t3 t4)) (jsMin t5 t6)
       else jsMin (jsMin (jsMax t1 t2) (jsMax t3 t4)) (jsMax t5 t6)) = XR.q x →
      x ≤ maxD := by
  simp only [Bool.or_eq_false_iff] at hguard
  obtain ⟨⟨hg1, hg2⟩, hg3⟩ := hguard
  have hm12 : jsMin t1 t2 ≠ XR.nan := jsMin_ne_nan _ _ h1 h2
  have hm34 : jsMin t3 t4 ≠ XR.nan := jsMin_ne_nan _ _ h3 h4
  have hm56 : jsMin t5 t6 ≠ XR.nan := jsMin_ne_nan _ _ h5 h6
  have hx12 : jsMax t1 t2 ≠ XR.nan := jsMax_ne_nan _ _ h1 h2
  have hx34 : jsMax t3 t4 ≠ XR.nan := jsMax_ne_nan _ _ h3 h4
  have hx56 : jsMax t5 t6 ≠ XR.nan := jsMax_ne_nan _ _ h5 h6
  rcases hshape with hsh | hsh | ⟨m, hm, hsh⟩ | ⟨M, hM, hsh⟩
  · have htmin : jsMax (jsMax (jsMin t1 t2) (jsMin t3 t4)) (jsMin t5 t6) =
        XR.pinf := by
      refine jsMax3_pinf _ _ _ hm12 hm34 hm56 ?_
      rcases hpos with ⟨ha, hb⟩ | ⟨ha, hb⟩ | ⟨ha, hb⟩ <;> subst ha <;> subst hb
      · exact Or.inl hsh
      · exact Or.inr (Or.inl hsh)
      · exact Or.inr (Or.inr hsh)
    rw [htmin] at hg3
    simp [jsLt] at hg3
  · have htmax : jsMin (jsMin (jsMax t1 t2) (jsMax t3 t4)) (jsMax t5 t6) =
        XR.ninf := by
      refine jsMin3_ninf _ _ _ hx12 hx34 hx56 ?_
      rcases hpos with ⟨ha, hb⟩ | ⟨ha, hb⟩ | ⟨ha, hb⟩ <;> subst ha <;> subst hb
      · exact Or.inl hsh
      · exact Or.inr (Or.inl hsh)
      · exact Or.inr (Or.inr hsh)
    rw [htmax] at hg1
    simp [jsLt] at hg1
  · have hle : jsLe (XR.q m)
        (jsMax (jsMax (jsMin t1 t2) (jsMin t3 t4)) (jsMin t5 t6)) = true := by
      refine jsLe_jsMax3 _ _ _ _ hm12 hm34 hm56 ?_
      rcases hpos with ⟨ha, hb⟩ | ⟨ha, hb⟩ | ⟨ha, hb⟩ <;> subst ha <;> subst hb
      · exact Or.inl (by rw [hsh]; simp [jsLe])
      · exact Or.inr (Or.inl (by rw [hsh]; simp [jsLe]))
      · exact Or.inr (Or.inr (by rw [hsh]; simp [jsLe]))
    have hsel : jsLe (XR.q 0)
        (jsMax (jsMax (jsMin t1 t2) (jsMin t3 t4)) (jsMin t5 t6)) = true := by
      rcases htm : jsMax (jsMax (jsMin t1 t2) (jsMin t3 t4)) (jsMin t5 t6) with
        _ | _ | _ | y
      · rw [htm] at hle; simp [jsLe] at hle
      · simp [jsLe]
      · rw [htm] at hle; simp [jsLe] at hle
      · rw [htm] at hle
        simp only [jsLe, decide_eq_true_eq] at hle ⊢
        linarith
    intro x hx
    rw [if_pos hsel] at hx
    rw [hx] at hg3
    simp only [jsLt, decide_eq_false_iff_not, not_lt] at hg3
    exact hg3
  · have hle : jsLe (jsMin (jsMin (jsMax t1 t2) (jsMax t3 t4)) (jsMax t5 t6))
        (XR.q M) = true := by
      refine jsMin3_le _ _ _ _ hx12 hx34 hx56 ?_
      rcases hpos with ⟨ha, hb⟩ | ⟨ha, hb⟩ | ⟨ha, hb⟩ <;> subst ha <;> subst hb
      · exact Or.inl (by rw [hsh]; simp [jsLe])
      · exact Or.inr (Or.inl (by rw [hsh]; simp [jsLe]))
      · exact Or.inr (Or.inr (by rw [hsh]; simp [jsLe]))
    rcases htm : jsMin (jsMin (jsMax t1 t2) (jsMax t3 t4)) (jsMax t5 t6) with
      _ | _ | _ | z
    · rw [htm] at hle; simp [jsLe] at hle
    · rw [htm] at hle; simp [jsLe] at hle
    · rw [htm] at hg1; simp [jsLt] at hg1
    · rw [htm] at hle hg1
      simp only [jsLe, decide_eq_true_eq] at hle
      simp only [jsLt, decide_eq_false_iff_not, not_lt] at hg1
      linarith

theorem normal_shape (p : XRVec3) (bounds : AABBQ) :
    ∃ n : Vec3Q,
      (if jsLt (xabs (jsSub p.x (XR.q bounds.lo.x))) (XR.q (1/10000)) then
        qv ⟨-1, 0, 0⟩
       else if jsLt (xabs (jsSub p.x (XR.q bounds.hi.x))) (XR.q (1/10000)) then
        qv ⟨1, 0, 0⟩
       else if jsLt (xabs (jsSub p.y (XR.q bounds.lo.y))) (XR.q (1/10000)) then
        qv ⟨0, -1, 0⟩
       else if jsLt (xabs (jsSub p.y (XR.q bounds.hi.y))) (XR.q (1/10000)) then
        qv ⟨0, 1, 0⟩
       else if jsLt (xabs (jsSub p.z (XR.q bounds.lo.z))) (XR.q (1/10000)) then
        qv ⟨0, 0, -1⟩
       else qv ⟨0, 0, 1⟩) = qv n := by
  split_ifs <;> exact ⟨_, rfl⟩

theorem raycastAabb_shape (origin direction : Vec3Q) (bounds : AABBQ)
    (maxD : ℚ)
    (hx : direction.x ≠ 0 ∨ (origin.x ≠ bounds.lo.x ∧ origin.x ≠ bounds.hi.x))
    (hy : direction.y ≠ 0 ∨ (origin.y ≠ bounds.lo.y ∧ origin.y ≠ bounds.hi.y))
    (hz : direction.z ≠ 0 ∨ (origin.z ≠ bounds.lo.z ∧ origin.z ≠ bounds.hi.z))
    (hd : direction.x ≠ 0 ∨ direction.y ≠ 0 ∨ direction.z ≠ 0) :
    raycastAabb origin direction bounds maxD = ⟨false, none, none, none⟩ ∨
    ∃ (x : ℚ) (p n : Vec3Q), 0 ≤ x ∧
      raycastAabb origin direction bounds maxD =
        ⟨true, some (XR.q x), some (qv p), some (qv n)⟩ := by
  obtain ⟨hn1, hn2⟩ := axis_ne_nan origin.x bounds.lo.x bounds.hi.x direction.x hx
  obtain ⟨hn3, hn4⟩ := axis_ne_nan origin.y bounds.lo.y bounds.hi.y direction.y hy
  obtain ⟨hn5, hn6⟩ := axis_ne_nan origin.z bounds.lo.z bounds.hi.z direction.z hz
  have hres := slabSelect_shape _ _ _ _ _ _ maxD hn1 hn2 hn3 hn4 hn5 hn6 (by
    rcases hd with hdx | hdy | hdz
    · exact ⟨max ((bounds.lo.x - origin.x) * (1/direction.x))
        ((bounds.hi.x - origin.x) * (1/direction.x)),
        Or.inl (by rw [if_pos hdx]; rfl)⟩
    · exact ⟨max ((bounds.lo.y - origin.y) * (1/direction.y))
        ((bounds.hi.y - origin.y) * (1/direction.y)),
        Or.inr (Or.inl (by rw [if_pos hdy]; rfl))⟩
    · exact ⟨max ((bounds.lo.z - origin.z) * (1/direction.z))
        ((bounds.hi.z - origin.z) * (1/direction.z)),
        Or.inr (Or.inr (by rw [if_pos hdz]; rfl))⟩)
  rcases hres with hg | ⟨hgf, x, hx0, hsel⟩
  · left
    simp only [raycastAabb]
    rw [if_pos hg]
  · right
    obtain ⟨n, hn⟩ := normal_shape
      (xvadd (qv origin) (xvmul (qv direction) (XR.q x))) bounds
    refine ⟨x, ⟨origin.x + direction.x * x, origin.y + direction.y * x,
      origin.z + direction.z * x⟩, n, hx0, ?_⟩
    simp only [raycastAabb]
    rw [if_neg (by rw [hgf]; simp)]
    rw [hsel]
    rw [hn]
    rfl

theorem raycastAabb_le_maxD (origin direction : Vec3Q) (bounds : AABBQ)
    (maxD : ℚ)
    (hx : direction.x ≠ 0 ∨ (origin.x ≠ bounds.lo.x ∧ origin.x ≠ bounds.hi.x))
    (hy : direction.y ≠ 0 ∨ (origin.y ≠ bounds.lo.y ∧ origin.y ≠ bounds.hi.y))
    (hz : direction.z ≠ 0 ∨ (origin.z ≠ bounds.lo.z ∧ origin.z ≠ bounds.hi.z))
    (hd : direction.x ≠ 0 ∨ direction.y ≠ 0 ∨ direction.z ≠ 0)
    (hwf : aabbWF bounds = true)
    (hout : aabbContains bounds origin = false) :
    ∀ x : ℚ,
      (raycastAabb origin direction bounds maxD).distance = some (XR.q x) →
      x ≤ maxD := by
  intro x hdist
  obtain ⟨hn1, hn2⟩ := axis_ne_nan origin.x bounds.lo.x bounds.hi.x direction.x hx
  obtain ⟨hn3, hn4⟩ := axis_ne_nan origin.y bounds.lo.y bounds.hi.y direction.y hy
  obtain ⟨hn5, hn6⟩ := axis_ne_nan origin.z bounds.lo.z bounds.hi.z direction.z hz
  simp only [aabbWF, Bool.and_eq_true, decide_eq_true_eq] at hwf
  obtain ⟨⟨hwx, hwy⟩, hwz⟩ := hwf
  simp only [aabbContains, Bool.and_eq_false_iff, ge_iff_le,
    decide_eq_false_iff_not, not_le] at hout
  have hres := slabSelect_shape _ _ _ _ _ _ maxD hn1 hn2 hn3 hn4 hn5 hn6 (by
    rcases hd with hdx | hdy | hdz
    · exact ⟨max ((bounds.lo.x - origin.x) * (1/direction.x))
        ((bounds.hi.x - origin.x) * (1/direction.x)),
        Or.inl (by rw [if_pos hdx]; rfl)⟩
    · exact ⟨max ((bounds.lo.y - origin.y) * (1/direction.y))
        ((bounds.hi.y - origin.y) * (1/direction.y)),
        Or.inr (Or.inl (by rw [if_pos hdy]; rfl))⟩
    · exact ⟨max ((bounds.lo.z - origin.z) * (1/direction.z))
        ((bounds.hi.z - origin.z) * (1/direction.z)),
        Or.inr (Or.inr (by rw [if_pos hdz]; rfl))⟩)
  rcases hres with hg | ⟨hgf, y, hy0, hsel⟩
  · have hmiss : raycastAabb origin direction bounds maxD =
        ⟨false, none, none, none⟩ := by
      simp only [raycastAabb]
      rw [if_pos hg]
    rw [hmiss] at hdist
    simp at hdist
  · have hray : (raycastAabb origin direction bounds maxD).distance =
        some (XR.q y) := by
      simp only [raycastAabb]
      rw [if_neg (by rw [hgf]; simp)]
      rw [hsel]
    rw [hray] at hdist
    simp only [Option.some.injEq, XR.q.injEq] at hdist
    subst hdist
    rcases hout with ((((hv | hv) | hv) | hv) | hv) | hv
    · exact slabSelect_le_maxD _ _ _ _ _ _ _ _ maxD hn1 hn2 hn3 hn4 hn5 hn6
        (Or.inl ⟨rfl, rfl⟩)
        (axis_shape origin.x bounds.lo.x bounds.hi.x direction.x hwx
          (Or.inl hv)) hgf y hsel
    · exact slabSelect_le_maxD _ _ _ _ _ _ _ _ maxD hn1 hn2 hn3 hn4 hn5 hn6
        (Or.inl ⟨rfl, rfl⟩)
        (axis_shape origin.x bounds.lo.x bounds.hi.x direction.x hwx
          (Or.inr hv)) hgf y hsel
    · exact slabSelect_le_maxD _ _ _ _ _ _ _ _ maxD hn1 hn2 hn3 hn4 hn5 hn6
        (Or.inr (Or.inl ⟨rfl, rfl⟩))
        (axis_shape origin.y bounds.lo.y bounds.hi.y direction.y hwy
          (Or.inl hv)) hgf y hsel
    · exact slabSelect_le_maxD _ _ _ _ _ _ _ _ maxD hn1 hn2 hn3 hn4 hn5 hn6
        (Or.inr (Or.inl ⟨rfl, rfl⟩))
        (axis_shape origin.y bounds.lo.y bounds.hi.y direction.y hwy
          (Or.inr hv)) hgf y hsel
    · exact slabSelect_le_maxD _ _ _ _ _ _ _ _ maxD hn1 hn2 hn3 hn4 hn5 hn6
        (Or.inr (Or.inr ⟨rfl, rfl⟩))
        (axis_shape origin.z bounds.lo.z bounds.hi.z direction.z hwz
          (Or.inl hv)) hgf y hsel
    · exact slabSelect_le_maxD _ _ _ _ _ _ _ _ maxD hn1 hn2 hn3 hn4 hn5 hn6
        (Or.inr (Or.inr ⟨rfl, rfl⟩))
        (axis_shape origin.z bounds.lo.z bounds.hi.z direction.z hwz
          (Or.inr hv)) hgf y hsel

theorem xnormalize_qv (sq : ℚ → ℚ) (v : Vec3Q) :
    ∃ n : Vec3Q, xnormalize sq (qv v) = qv n := by
  have hdot : xvdot (qv v) (qv v) =
      XR.q (v.x * v.x + v.y * v.y + v.z * v.z) := rfl
  have hs : ¬(v.x * v.x + v.y * v.y + v.z * v.z < 0) :=
    not_lt.mpr (add_nonneg (add_nonneg (mul_self_nonneg v.x)
      (mul_self_nonneg v.y)) (mul_self_nonneg v.z))
  simp only [xnormalize, hdot, xsqrt]
  rw [if_neg hs]
  by_cases hz : sq (v.x * v.x + v.y * v.y + v.z * v.z) = 0
  · rw [if_pos (by rw [hz])]
    exact ⟨⟨0, 0, 0⟩, rfl⟩
  · rw [if_neg (by simp [hz])]
    refine ⟨⟨v.x / sq (v.x * v.x + v.y * v.y + v.z * v.z),
      v.y / sq (v.x * v.x + v.y * v.y + v.z * v.z),
      v.z / sq (v.x * v.x + v.y * v.y + v.z * v.z)⟩, ?_⟩
    simp [xvdiv, jsDiv, jsDivQ, hz, qv]

theorem raycastSphere_shape (sq : ℚ → ℚ) (origin direction center : Vec3Q)
    (radius maxD : ℚ) (ha : vdot direction direction ≠ 0) :
    raycastSphere sq origin direction center radius maxD =
      ⟨false, none, none, none⟩ ∨
    ∃ (x : ℚ) (n : Vec3Q), 0 ≤ x ∧ x ≤ maxD ∧
      raycastSphere sq origin direction center radius maxD =
        ⟨true, some (XR.q x),
         some (qv ⟨origin.x + direction.x * x, origin.y + direction.y * x,
           origin.z + direction.z * x⟩), some (qv n)⟩ := by
  simp only [raycastSphere]
  set A := vdot direction direction with hA
  set B := 2 * vdot (vsub origin center) direction with hB
  set C := vdot (vsub origin center) (vsub origin center) - radius * radius
    with hC
  have h2A : (2 : ℚ) * A ≠ 0 := mul_ne_zero two_ne_zero ha
  by_cases hdisc : B * B - 4 * A * C < 0
  · left
    rw [if_pos hdisc]
  · rw [if_neg hdisc]
    simp only [jsDivQ]
    rw [if_neg h2A, if_neg h2A]
    by_cases hneg : (-B - sq (B * B - 4 * A * C)) / (2 * A) < 0
    · have hc1 : jsLt (XR.q ((-B - sq (B * B - 4 * A * C)) / (2 * A)))
          (XR.q 0) = true := by
        simp [jsLt, hneg]
      rw [if_pos hc1]
      by_cases hg : (-B + sq (B * B - 4 * A * C)) / (2 * A) < 0 ∨
          maxD < (-B + sq (B * B - 4 * A * C)) / (2 * A)
      · left
        have hcond : (jsLt (XR.q ((-B + sq (B * B - 4 * A * C)) / (2 * A)))
              (XR.q 0) ||
            jsLt (XR.q maxD)
              (XR.q ((-B + sq (B * B - 4 * A * C)) / (2 * A)))) = true := by
          rcases hg with hg | hg <;> simp [jsLt, hg]
        rw [if_pos hcond]
      · right
        push_neg at hg
        have hcond : ¬((jsLt (XR.q ((-B + sq (B * B - 4 * A * C)) / (2 * A)))
              (XR.q 0) ||
            jsLt (XR.q maxD)
              (XR.q ((-B + sq (B * B - 4 * A * C)) / (2 * A)))) = true) := by
          simp [jsLt, not_lt.mpr hg.1, not_lt.mpr hg.2]
        rw [if_neg hcond]
        obtain ⟨n, hn⟩ := xnormalize_qv sq
          ⟨origin.x + direction.x * ((-B + sq (B * B - 4 * A * C)) / (2 * A)) + -center.x,
           origin.y + direction.y * ((-B + sq (B * B - 4 * A * C)) / (2 * A)) + -center.y,
           origin.z + direction.z * ((-B + sq (B * B - 4 * A * C)) / (2 * A)) + -center.z⟩
        refine ⟨(-B + sq (B * B - 4 * A * C)) / (2 * A), n, hg.1, hg.2, ?_⟩
        rw [show xvsub (xvadd (qv origin) (xvmul (qv direction)
            (XR.q ((-B + sq (B * B - 4 * A * C)) / (2 * A))))) (qv center) =
          qv ⟨origin.x + direction.x *
              ((-B + sq (B * B - 4 * A * C)) / (2 * A)) + -center.x,
            origin.y + direction.y *
              ((-B + sq (B * B - 4 * A * C)) / (2 * A)) + -center.y,
            origin.z + direction.z *
              ((-B + sq (B * B - 4 * A * C)) / (2 * A)) + -center.z⟩ from rfl]
        rw [hn]
        rfl
    · have hc1 : ¬(jsLt (XR.q ((-B - sq (B * B - 4 * A * C)) / (2 * A)))
          (XR.q 0) = true) := by
        simp [jsLt, not_lt.mpr (not_lt.mp hneg)]
      rw [if_neg hc1]
      by_cases hg : maxD < (-B - sq (B * B - 4 * A * C)) / (2 * A)
      · left
        have hcond : (jsLt (XR.q ((-B - sq (B * B - 4 * A * C)) / (2 * A)))
              (XR.q 0) ||
            jsLt (XR.q maxD)
              (XR.q ((-B - sq (B * B - 4 * A * C)) / (2 * A)))) = true := by
          simp [jsLt, hg]
        rw [if_pos hcond]
      · right
        push_neg at hneg hg
        have hcond : ¬((jsLt (XR.q ((-B - sq (B * B - 4 * A * C)) / (2 * A)))
              (XR.q 0) ||
            jsLt (XR.q maxD)
              (XR.q ((-B - sq (B * B - 4 * A * C)) / (2 * A)))) = true) := by
          simp [jsLt, not_lt.mpr hneg, not_lt.mpr hg]
        rw [if_neg hcond]
        obtain ⟨n, hn⟩ := xnormalize_qv sq
          ⟨origin.x + direction.x * ((-B - sq (B * B - 4 * A * C)) / (2 * A)) + -center.x,
           origin.y + direction.y * ((-B - sq (B * B - 4 * A * C)) / (2 * A)) + -center.y,
           origin.z + direction.z * ((-B - sq (B * B - 4 * A * C)) / (2 * A)) + -center.z⟩
        refine ⟨(-B - sq (B * B - 4 * A * C)) / (2 * A), n, hneg, hg, ?_⟩
        rw [show xvsub (xvadd (qv origin) (xvmul (qv direction)
            (XR.q ((-B - sq (B * B - 4 * A * C)) / (2 * A))))) (qv center) =
          qv ⟨origin.x + direction.x *
              ((-B - sq (B * B - 4 * A * C)) / (2 * A)) + -center.x,
            origin.y + direction.y *
              ((-B - sq (B * B - 4 * A * C)) / (2 * A)) + -center.y,
            origin.z + direction.z *
              ((-B - sq (B * B - 4 * A * C)) / (2 * A)) + -center.z⟩ from rfl]
        rw [hn]
        rfl

/-- Counterexample to the unconditional C8 claim: a zero direction component
with the origin exactly on that slab plane makes 0 * Infinity = NaN flow into
tmin/tmax, every NaN comparison in the guard is false, and raycastAabb
reports a hit with NaN distance; a zero direction vector makes raycastSphere
divide 0/0 and report a hit with NaN distance; and with the origin inside
the box the reported hit distance is tmax, which exceeds maxDistance. -/
theorem raycast_zero_component_safe_false :
    ((raycastAabb ⟨0,0,0⟩ ⟨0,1,1⟩ ⟨⟨0,2,2⟩,⟨5,4,4⟩⟩ 100).hit = true ∧
     (raycastAabb ⟨0,0,0⟩ ⟨0,1,1⟩ ⟨⟨0,2,2⟩,⟨5,4,4⟩⟩ 100).distance =
       some XR.nan) ∧
    ((raycastSphere (fun _ => 0) ⟨0,0,0⟩ ⟨0,0,0⟩ ⟨5,0,0⟩ 1 100).hit = true ∧
     (raycastSphere (fun _ => 0) ⟨0,0,0⟩ ⟨0,0,0⟩ ⟨5,0,0⟩ 1 100).distance =
       some XR.nan) ∧
    ((raycastAabb ⟨0,0,0⟩ ⟨1,1,1⟩ ⟨⟨-1,-1,-1⟩,⟨9,9,9⟩⟩ 5).hit = true ∧
     (raycastAabb ⟨0,0,0⟩ ⟨1,1,1⟩ ⟨⟨-1,-1,-1⟩,⟨9,9,9⟩⟩ 5).distance =
       some (XR.q 9) ∧
     ¬ ((9:ℚ) ≤ 5)) :=
  ⟨raycastAabb_nan_eval, raycastSphere_zero_dir_eval,
   by rw [raycastAabb_inside_eval], by rw [raycastAabb_inside_eval],
   by norm_num⟩

/-- C8: with a direction of nonzero squared length and, per axis, either a
nonzero direction component or an origin component off both slab planes,
raycastSphere and raycastAabb produce no NaN anywhere in the result; every
sphere hit distance lies in [0, maxDistance]; every box hit distance is a
nonnegative rational, and it is at most maxDistance whenever the origin lies
outside a well-formed box. -/
theorem raycast_zero_component_safe (sq : ℚ → ℚ)
    (origin direction center : Vec3Q) (bounds : AABBQ) (radius maxD : ℚ)
    (ha : vdot direction direction ≠ 0)
    (hx : direction.x ≠ 0 ∨ (origin.x ≠ bounds.lo.x ∧ origin.x ≠ bounds.hi.x))
    (hy : direction.y ≠ 0 ∨ (origin.y ≠ bounds.lo.y ∧ origin.y ≠ bounds.hi.y))
    (hz : direction.z ≠ 0 ∨ (origin.z ≠ bounds.lo.z ∧ origin.z ≠ bounds.hi.z))
    (hd : direction.x ≠ 0 ∨ direction.y ≠ 0 ∨ direction.z ≠ 0) :
    resNoNaN (raycastSphere sq origin direction center radius maxD) = true ∧
    (∀ t, (raycastSphere sq origin direction center radius maxD).distance =
        some t → ∃ x : ℚ, t = XR.q x ∧ 0 ≤ x ∧ x ≤ maxD) ∧
    resNoNaN (raycastAabb origin direction bounds maxD) = true ∧
    (∀ t, (raycastAabb origin direction bounds maxD).distance = some t →
      ∃ x : ℚ, t = XR.q x ∧ 0 ≤ x) ∧
    (aabbWF bounds = true → aabbContains bounds origin = false →
      ∀ x : ℚ,
        (raycastAabb origin direction bounds maxD).distance = some (XR.q x) →
        x ≤ maxD) := by
  have hsph := raycastSphere_shape sq origin direction center radius maxD ha
  have haabb := raycastAabb_shape origin direction bounds maxD hx hy hz hd
  refine ⟨?_, ?_, ?_, ?_, ?_⟩
  · rcases hsph with hs | ⟨x, n, hx0, hxm, hs⟩ <;> rw [hs] <;> rfl
  · rcases hsph with hs | ⟨x, n, hx0, hxm, hs⟩ <;> rw [hs]
    · intro t ht
      simp at ht
    · intro t ht
      have h2 : XR.q x = t := by simpa using ht
      exact ⟨x, h2.symm, hx0, hxm⟩
  · rcases haabb with hA | ⟨x, p, n, hx0, hA⟩ <;> rw [hA] <;> rfl
  · rcases haabb with hA | ⟨x, p, n, hx0, hA⟩ <;> rw [hA]
    · intro t ht
      simp at ht
    · intro t ht
      have h2 : XR.q x = t := by simpa using ht
      exact ⟨x, h2.symm, hx0⟩
  · intro hwf hout
    exact raycastAabb_le_maxD origin direction bounds maxD hx hy hz hd hwf hout

theorem raycast_zero_component_safe_witness :
    resNoNaN (raycastSphere (fun _ => 0) ⟨0,0,0⟩ ⟨1,1,1⟩ ⟨3,0,0⟩ 1 100) =
      true ∧
    (∀ t, (raycastSphere (fun _ => 0) ⟨0,0,0⟩ ⟨1,1,1⟩ ⟨3,0,0⟩ 1 100).distance =
        some t → ∃ x : ℚ, t = XR.q x ∧ 0 ≤ x ∧ x ≤ 100) ∧
    resNoNaN (raycastAabb ⟨0,0,0⟩ ⟨1,1,1⟩ ⟨⟨2,-1,-1⟩,⟨4,1,1⟩⟩ 100) = true ∧
    (∀ t, (raycastAabb ⟨0,0,0⟩ ⟨1,1,1⟩ ⟨⟨2,-1,-1⟩,⟨4,1,1⟩⟩ 100).distance =
        some t → ∃ x : ℚ, t = XR.q x ∧ 0 ≤ x) ∧
    (aabbWF ⟨⟨2,-1,-1⟩,⟨4,1,1⟩⟩ = true →
      aabbContains ⟨⟨2,-1,-1⟩,⟨4,1,1⟩⟩ ⟨0,0,0⟩ = false →
      ∀ x : ℚ,
        (raycastAabb ⟨0,0,0⟩ ⟨1,1,1⟩ ⟨⟨2,-1,-1⟩,⟨4,1,1⟩⟩ 100).distance =
          some (XR.q x) → x ≤ 100) :=
  raycast_zero_component_safe (fun _ => 0) ⟨0,0,0⟩ ⟨1,1,1⟩ ⟨3,0,0⟩
    ⟨⟨2,-1,-1⟩,⟨4,1,1⟩⟩ 1 100 (by norm_num [vdot]) (Or.inl (by norm_num))
    (Or.inl (by norm_num)) (Or.inl (by norm_num)) (Or.inl (by norm_num))

theorem physicsStepVerlet_AB (sq : ℚ → ℚ)
    (h0 : ¬(sq 0 > (100:ℚ))) (h1 : ¬(sq (9801/1562500) > (100:ℚ))) :
    (physicsStepVerlet sq ⟨0,-10,0⟩ (2/125)
        [⟨"a","drone",⟨0,0,0⟩,⟨0,0,0⟩,"idle",none⟩,
         ⟨"b","vehicle",⟨0,0,0⟩,⟨0,0,0⟩,"idle",none⟩] ⟨0,0,0⟩).1 =
      [⟨"a","drone",⟨0,0,0⟩,⟨0,0,0⟩,"idle",none⟩,
       ⟨"b","vehicle",⟨0,-4/3125,0⟩,⟨0,-99/1250,0⟩,"idle",none⟩] := by
  simp +decide [physicsStepVerlet, verletIntegrate, vmul, vadd, vlength,
    vlengthSq]
  norm_num [h0, h1]

theorem physicsStepVerlet_BA (sq : ℚ → ℚ)
    (h0 : ¬(sq 0 > (100:ℚ))) (h1 : ¬(sq (9801/1562500) > (100:ℚ))) :
    (physicsStepVerlet sq ⟨0,-10,0⟩ (2/125)
        [⟨"b","vehicle",⟨0,0,0⟩,⟨0,0,0⟩,"idle",none⟩,
         ⟨"a","drone",⟨0,0,0⟩,⟨0,0,0⟩,"idle",none⟩] ⟨0,0,0⟩).1 =
      [⟨"b","vehicle",⟨0,-4/3125,0⟩,⟨0,-99/1250,0⟩,"idle",none⟩,
       ⟨"a","drone",⟨0,0,0⟩,⟨0,-99/1250,0⟩,"idle",none⟩] := by
  simp +decide [physicsStepVerlet, verletIntegrate, vmul, vadd, vlength,
    vlengthSq]
  norm_num [h0, h1]

/-- C1: refuted on the code as written. The runtime holds one VerletIntegrator
instance whose prevAcceleration field is shared across every entity processed
in registry insertion order, so with the verlet integrator two sessions that
differ only in entity insertion order produce different velocities, and the
id-sorted data fed to computeStepHash differs: sorting by id before hashing
does not make the step hash insertion-order independent. With a drone "a"
(zero acceleration) and a vehicle "b" (gravity), order a-then-b leaves "a"
with zero velocity while order b-then-a gives "a" velocity (0, -99/1250, 0)
after one step. -/
theorem stepHash_insertion_order_leak (sq : ℚ → ℚ)
    (hsq : ∀ q : ℚ, 0 ≤ q → q ≤ 1 → sq q ≤ 100) :
    stepHashInput (physicsStepVerlet sq ⟨0,-10,0⟩ (2/125)
        [⟨"a","drone",⟨0,0,0⟩,⟨0,0,0⟩,"idle",none⟩,
         ⟨"b","vehicle",⟨0,0,0⟩,⟨0,0,0⟩,"idle",none⟩] ⟨0,0,0⟩).1 ≠
      stepHashInput (physicsStepVerlet sq ⟨0,-10,0⟩ (2/125)
        [⟨"b","vehicle",⟨0,0,0⟩,⟨0,0,0⟩,"idle",none⟩,
         ⟨"a","drone",⟨0,0,0⟩,⟨0,0,0⟩,"idle",none⟩] ⟨0,0,0⟩).1 := by
  have h0 : ¬(sq 0 > (100:ℚ)) := not_lt.mpr (hsq 0 le_rfl zero_le_one)
  have h1 : ¬(sq (9801/1562500) > (100:ℚ)) :=
    not_lt.mpr (hsq _ (by norm_num) (by norm_num))
  rw [physicsStepVerlet_AB sq h0 h1, physicsStepVerlet_BA sq h0 h1]
  intro heq
  have hmem : ("a", (⟨0,0,0⟩ : Vec3Q), (⟨0,0,0⟩ : Vec3Q)) ∈
      stepHashInput [⟨"a","drone",⟨0,0,0⟩,⟨0,0,0⟩,"idle",none⟩,
        ⟨"b","vehicle",⟨0,-4/3125,0⟩,⟨0,-99/1250,0⟩,"idle",none⟩] := by
    simp [stepHashInput, List.mem_mergeSort]
  rw [heq] at hmem
  simp [stepHashInput, List.mem_mergeSort] at hmem

theorem stepHash_insertion_order_leak_witness :
    stepHashInput (physicsStepVerlet (fun _ => 0) ⟨0,-10,0⟩ (2/125)
        [⟨"a","drone",⟨0,0,0⟩,⟨0,0,0⟩,"idle",none⟩,
         ⟨"b","vehicle",⟨0,0,0⟩,⟨0,0,0⟩,"idle",none⟩] ⟨0,0,0⟩).1 ≠
      stepHashInput (physicsStepVerlet (fun _ => 0) ⟨0,-10,0⟩ (2/125)
        [⟨"b","vehicle",⟨0,0,0⟩,⟨0,0,0⟩,"idle",none⟩,
         ⟨"a","drone",⟨0,0,0⟩,⟨0,0,0⟩,"idle",none⟩] ⟨0,0,0⟩).1 :=
  stepHash_insertion_order_leak (fun _ => 0)
    (fun q _ _ => by norm_num)
